import Mathlib

/-!
Verification of the lyrics-resolution engine of `src/services/audio-separator/app.py`.

Python strings are modelled as lists of characters (`Str`).  Pure helpers
(normalisation, query variations, LRC parsing, validation, similarity,
selection) are embedded directly; the network-dependent source fetchers are
parameters (`Fetchers`), one request-scoped oracle per provider, with the
fetchers' tag computations kept in the embedding.  The filesystem at the
request's `outputPath` is a small state (`FileState`).  Rational numbers stand
for Python floats: every comparison the code performs is between quantities
whose distance from the decision threshold is far larger than double rounding
error, so the models agree on all realistic inputs.
-/

set_option maxRecDepth 4000

attribute [local semireducible] Rat.add Rat.mul

namespace LyricsEngine

/-- Python strings, modelled as lists of characters. -/
abbrev Str := List Char

/-- Python whitespace (`str.strip()`, `\s`, `str.split()`), ASCII range. -/
def isPyWs (c : Char) : Bool :=
  c = ' ' || c = '\t' || c = '\n' || c = '\r' || c = '\x0b' || c = '\x0c'

/-- `str.strip()`: drop whitespace from both ends. -/
def pyStrip (s : Str) : Str :=
  ((s.dropWhile isPyWs).reverse.dropWhile isPyWs).reverse

/-- `str.lower()` (ASCII case folding, which covers every input exercised here). -/
def pyLower (s : Str) : Str := s.map Char.toLower

/-- `str.split("\n")`. -/
def splitLines (s : Str) : List Str :=
  s.foldr (fun c acc =>
    match acc with
    | [] => [[c]]
    | l :: ls => if c = '\n' then [] :: l :: ls else (c :: l) :: ls) [[]]

/-- `str.split()` with no argument: the maximal runs of non-whitespace. -/
def pyWords (s : Str) : List Str :=
  let p := s.foldr (fun c acc =>
    if isPyWs c then (([] : Str), if acc.1 = [] then acc.2 else acc.1 :: acc.2)
    else (c :: acc.1, acc.2)) (([] : Str), ([] : List Str))
  if p.1 = [] then p.2 else p.1 :: p.2

/-- Python substring test `needle in hay`. -/
def strContains (hay needle : Str) : Bool :=
  hay.tails.any (fun t => needle.isPrefixOf t)

/-- `s.split(sep, 1)` at the first occurrence of `sep`; `none` when `sep`
does not occur (Python then returns `[s]`). -/
def splitOnce (sep : Str) : Str → Option (Str × Str)
  | [] => if sep = [] then some ([], []) else none
  | c :: rest =>
    if sep.isPrefixOf (c :: rest) then some ([], (c :: rest).drop sep.length)
    else (splitOnce sep rest).map (fun q => (c :: q.1, q.2))

/-! ### A small regular-expression engine

Exactly the constructs appearing in the source's patterns, with Python's
backtracking priority: greedy `star`/`opt`, left-preferring `alt`. -/

/-- Regular-expression syntax used by the source's patterns. -/
inductive RE where
  | eps
  | cls (p : Char → Bool)
  | seq (a b : RE)
  | alt (a b : RE)
  | opt (a : RE)
  | star (a : RE)
  | eos

/-- Structural size, used to bound the matcher's fuel. -/
def reSize : RE → Nat
  | .eps => 1
  | .cls _ => 1
  | .seq a b => reSize a + reSize b + 1
  | .alt a b => reSize a + reSize b + 1
  | .opt a => reSize a + 1
  | .star a => reSize a + 1
  | .eos => 1

/-- Backtracking matcher in continuation style; `k` receives the remainder
after the prefix matched by `r`, and the first success in Python's
backtracking order wins.  A `star` iteration must consume input (none of the
source's starred subexpressions can match the empty string).  The fuel only
bounds the recursion; `reFuel` below always suffices. -/
def reRun (fuel : Nat) (r : RE) (s : Str) (k : Str → Option Str) : Option Str :=
  match fuel with
  | 0 => none
  | fuel + 1 =>
    match r with
    | .eps => k s
    | .cls p =>
      match s with
      | [] => none
      | c :: rest => if p c then k rest else none
    | .seq a b => reRun fuel a s (fun s1 => reRun fuel b s1 k)
    | .alt a b =>
      match reRun fuel a s k with
      | some out => some out
      | none => reRun fuel b s k
    | .opt a =>
      match reRun fuel a s k with
      | some out => some out
      | none => k s
    | .star a =>
      match reRun fuel a s (fun s1 =>
        if s1.length < s.length then reRun fuel (.star a) s1 k else none) with
      | some out => some out
      | none => k s
    | .eos => if s = [] ∨ s = ['\n'] then k s else none

/-- Fuel that suffices for `reRun` on `r` against `s`. -/
def reFuel (r : RE) (s : Str) : Nat := (reSize r + 2) * (s.length + 2)

/-- Match `r` at the start of `s` (as `re.match`): the remainder after the
match chosen by Python's backtracking order. -/
def reMatchAt (r : RE) (s : Str) : Option Str :=
  reRun (reFuel r s) r s some

/-- Fuelled worker for `reSub`; each step consumes at least one character, so
fuel `s.length` (as `reSub` passes) never runs out. -/
def reSubAux (r : RE) (repl : Str) : Nat → Str → Str
  | 0, s => s
  | _ + 1, [] => []
  | fuel + 1, c :: rest =>
    match reMatchAt r (c :: rest) with
    | some rem =>
      if rem.length < (c :: rest).length then repl ++ reSubAux r repl fuel rem
      else c :: reSubAux r repl fuel rest
    | none => c :: reSubAux r repl fuel rest

/-- `re.sub(r, repl, s)`: replace every non-overlapping leftmost match.  All
patterns substituted by the source match at least one character; a zero-width
match is treated as no match at that position. -/
def reSub (r : RE) (repl : Str) (s : Str) : Str := reSubAux r repl s.length s

/-- Fuelled worker for `reSplit`; fuel `s.length` never runs out. -/
def reSplitAux (r : RE) : Nat → Str → List Str
  | 0, s => [s]
  | _ + 1, [] => [[]]
  | fuel + 1, c :: rest =>
    match reMatchAt r (c :: rest) with
    | some rem =>
      if rem.length < (c :: rest).length then [] :: reSplitAux r fuel rem
      else
        match reSplitAux r fuel rest with
        | [] => [[c]]
        | p :: ps => (c :: p) :: ps
    | none =>
      match reSplitAux r fuel rest with
      | [] => [[c]]
      | p :: ps => (c :: p) :: ps

/-- `re.split(r, s)` for a separator pattern that cannot match the empty
string. -/
def reSplit (r : RE) (s : Str) : List Str := reSplitAux r s.length s

/-- A literal character (case-sensitive). -/
def rchar (c : Char) : RE := .cls (fun x => x == c)

/-- A literal character under `re.IGNORECASE`. -/
def richar (c : Char) : RE := .cls (fun x => x.toLower == c.toLower)

/-- `\d`. -/
def rdigit : RE := .cls Char.isDigit

/-- `\s`. -/
def rws : RE := .cls isPyWs

/-- A negated single-character class `[^c]` (it does match newlines). -/
def rnot (c : Char) : RE := .cls (fun x => x != c)

/-- `.` (any character except a newline). -/
def rdot : RE := .cls (fun x => x != '\n')

/-- Concatenation of a list of regexes. -/
def rseq (l : List RE) : RE := l.foldr .seq .eps

/-- A literal word under `re.IGNORECASE`. -/
def ristr (s : String) : RE := rseq (s.toList.map richar)

/-- `r+`. -/
def rplus (r : RE) : RE := .seq r (.star r)

/-- `\s*`. -/
def rwsStar : RE := .star rws

/-- `\s+`. -/
def rwsPlus : RE := rplus rws

/-- `_TITLE_STRIP_PATTERNS`, transcribed in source order (all are compiled
with `re.IGNORECASE`). -/
def titleStripPatterns : List RE := [
  rseq [rwsStar, rchar '(', ristr "feat", .opt (rchar '.'), rwsPlus, .star (rnot ')'), rchar ')'],
  rseq [rwsStar, rchar '[', ristr "feat", .opt (rchar '.'), rwsPlus, .star (rnot ']'), rchar ']'],
  rseq [rwsStar, ristr "ft", .opt (rchar '.'), rwsPlus, .star rdot, .eos],
  rseq [rwsStar, rchar '(', ristr "with", rwsPlus, .star (rnot ')'), rchar ')'],
  rseq [rwsStar, rchar '[', ristr "with", rwsPlus, .star (rnot ']'), rchar ']'],
  rseq [rwsStar, rchar '(', ristr "remaster", .opt (ristr "ed"), rwsStar, .star rdigit, rchar ')'],
  rseq [rwsStar, rchar '[', ristr "remaster", .opt (ristr "ed"), rwsStar, .star rdigit, rchar ']'],
  rseq [rwsStar, rchar '-', rwsStar, ristr "single", .eos],
  rseq [rwsStar, rchar '(', ristr "deluxe", .star (rnot ')'), rchar ')'],
  rseq [rwsStar, rchar '(', ristr "bonus", rwsStar, ristr "track", rchar ')'],
  rseq [rwsStar, rchar '(', ristr "live", .star (rnot ')'), rchar ')'],
  rseq [rwsStar, rchar '[', ristr "live", .star (rnot ']'), rchar ']'],
  rseq [rwsStar, rchar '(', ristr "acoustic", .star (rnot ')'), rchar ')'],
  rseq [rwsStar, rchar '(', ristr "remix", .star (rnot ')'), rchar ')'],
  rseq [rwsStar, rchar '[', ristr "remix", .star (rnot ']'), rchar ']'],
  rseq [rwsStar, rchar '(', ristr "radio", rwsStar, ristr "edit", rchar ')'],
  rseq [rwsStar, rchar '(', ristr "explicit", rchar ')'],
  rseq [rwsStar, rchar '(', ristr "clean", rchar ')'],
  rseq [rwsStar, rchar '(', ristr "original", rwsStar, ristr "mix", rchar ')'],
  rseq [rwsStar, rchar '(', ristr "extended", .star (rnot ')'), rchar ')']]

/-- `_ARTIST_SPLIT_RE` (`re.IGNORECASE`). -/
def artistSplitRE : RE :=
  rseq [rwsStar,
    .alt (rseq [rchar ',', rwsStar])
      (rseq [rwsPlus,
        .alt (rchar '&')
          (.alt (ristr "and")
            (.alt (rseq [ristr "feat", .opt (rchar '.')])
              (.alt (rseq [ristr "ft", .opt (rchar '.')])
                (.alt (rseq [ristr "vs", .opt (rchar '.')])
                  (.alt (richar 'x') (rchar '×')))))),
        rwsPlus]),
    rwsStar]

/-- `\w` (ASCII scope, which covers every input exercised here). -/
def isWordChar (c : Char) : Bool := c.isAlphanum || c == '_'

/-- `unicodedata.normalize("NFKD", text)` followed by dropping combining
marks.  On ASCII text — all inputs exercised in this development — the
composite is the identity; full Unicode decomposition tables are outside the
scope of this embedding. -/
def nfkdStripCombining (s : Str) : Str := s

/-- `_normalize_text`. -/
def normalizeText (s : Str) : Str :=
  let s1 := nfkdStripCombining s
  let s2 := pyStrip (pyLower s1)
  let s3 := titleStripPatterns.foldl (fun acc p => reSub p [] acc) s2
  let s4 := reSub (.cls (fun c => !(isWordChar c || isPyWs c))) [] s3
  let s5 := reSub rwsPlus [' '] s4
  pyStrip s5

/-- `_normalize_artist`: `_normalize_text`, then `re.sub(r"^the\s+", "", ·)`
(the input is already lower-cased at that point). -/
def normalizeArtist (s : Str) : Str :=
  let n := normalizeText s
  match n with
  | 't' :: 'h' :: 'e' :: rest =>
    match rest with
    | c :: _ => if isPyWs c then rest.dropWhile isPyWs else n
    | [] => n
  | _ => n

/-- `_split_artists`. -/
def splitArtists (s : Str) : List Str :=
  ((reSplit artistSplitRE s).map pyStrip).filter (fun p => p ≠ [])

/-- `_strip_all_parentheticals`. -/
def stripAllParentheticals (t : Str) : Str :=
  pyStrip (reSub (rseq [rwsStar, rchar '[', .star (rnot ']'), rchar ']']) []
    (reSub (rseq [rwsStar, rchar '(', .star (rnot ')'), rchar ')']) [] t))

/-! ### Query variations -/

/-- State of `_generate_query_variations`: the case-insensitive keys seen so
far and the variations emitted so far. -/
structure VarState where
  seen : List (Str × Str)
  out : List (Str × Str)

/-- The `_add` closure of `_generate_query_variations`. -/
def addVariation (st : VarState) (q : Str × Str) : VarState :=
  let key := (pyLower (pyStrip q.1), pyLower (pyStrip q.2))
  if key ∉ st.seen ∧ key.1 ≠ [] ∧ key.2 ≠ [] then
    { seen := key :: st.seen, out := st.out ++ [(pyStrip q.1, pyStrip q.2)] }
  else st

/-- The ordered `_add` calls made by `_generate_query_variations`. -/
def variationAttempts (artist title : Str) : List (Str × Str) :=
  let cleanTitle := pyStrip (titleStripPatterns.foldl (fun acc p => reSub p [] acc) title)
  let bareTitle := stripAllParentheticals title
  let normArtist := normalizeArtist artist
  let normTitle := normalizeText title
  let artists := splitArtists artist
  [(artist, title), (artist, cleanTitle), (artist, bareTitle),
   (normArtist, title), (normArtist, cleanTitle), (normArtist, bareTitle),
   (normArtist, normTitle)]
  ++ (match artists with
      | a0 :: _ :: _ => [(a0, title), (a0, cleanTitle), (a0, bareTitle)]
      | _ => [])
  ++ (match splitOnce (" - ".toList) title with
      | some pr => [(artist, pyStrip pr.2), (pyStrip pr.1, pyStrip pr.2)]
      | none => [])

/-- `_generate_query_variations`. -/
def generateQueryVariations (artist title : Str) : List (Str × Str) :=
  ((variationAttempts artist title).foldl addVariation ⟨[], []⟩).out

/-! ### LRC parsing and validation -/

/-- Value of a run of digit characters. -/
def digitsToNat (l : Str) : Nat :=
  l.foldl (fun acc c => acc * 10 + (c.toNat - '0'.toNat)) 0

/-- Prefix test `^\[\d+:\d{2}` on one line (used by `_has_lrc_timestamps` and
the first branch of `_count_lyric_lines`). -/
def matchTsPrefix (s : Str) : Bool :=
  match s with
  | '[' :: rest =>
    (match rest.dropWhile Char.isDigit with
     | ':' :: d1 :: d2 :: _ => !(rest.takeWhile Char.isDigit).isEmpty && d1.isDigit && d2.isDigit
     | _ => false)
  | _ => false

/-- Parse a full `\[\d+:\d{2}(?:\.\d{2,3})?\]` tag at the head of `s`,
returning the timestamp in seconds (`mins*60 + secs + frac`, with the
fractional digits zero-padded on the right to milliseconds) and the remainder.
The regex's backtracking over the optional fractional group is equivalent to
this ordered scan: the two-digit arm fires exactly when a `]` follows two
digits, the three-digit arm when a third digit and then `]` follow. -/
def parseTsTag (s : Str) : Option (ℚ × Str) :=
  match s with
  | '[' :: rest =>
    if (rest.takeWhile Char.isDigit).isEmpty then none
    else
      let mins : ℚ := (digitsToNat (rest.takeWhile Char.isDigit) : ℚ)
      match rest.dropWhile Char.isDigit with
      | ':' :: d1 :: d2 :: ']' :: rem =>
        if d1.isDigit && d2.isDigit then
          some (mins * 60 + (digitsToNat [d1, d2] : ℚ), rem)
        else none
      | ':' :: d1 :: d2 :: '.' :: e1 :: e2 :: ']' :: rem =>
        if d1.isDigit && d2.isDigit && e1.isDigit && e2.isDigit then
          some (mins * 60 + (digitsToNat [d1, d2] : ℚ)
            + mkRat (digitsToNat [e1, e2] * 10) 1000, rem)
        else none
      | ':' :: d1 :: d2 :: '.' :: e1 :: e2 :: e3 :: ']' :: rem =>
        if d1.isDigit && d2.isDigit && e1.isDigit && e2.isDigit && e3.isDigit then
          some (mins * 60 + (digitsToNat [d1, d2] : ℚ)
            + mkRat (digitsToNat [e1, e2, e3]) 1000, rem)
        else none
      | _ => none
  | _ => none

/-- `_extract_lrc_timestamps`. -/
def extractLrcTimestamps (content : Str) : List ℚ :=
  (splitLines content).filterMap (fun line => (parseTsTag (pyStrip line)).map Prod.fst)

/-- `_has_lrc_timestamps`: `re.search(r"^\[\d+:\d{2}", content, re.MULTILINE)`. -/
def hasLrcTimestamps (content : Str) : Bool :=
  (splitLines content).any (fun line => matchTsPrefix line)

/-- Whether `_count_lyric_lines` counts one already-stripped, non-blank line:
timestamp-prefixed lines count when text remains after
`re.sub(r"^\[\d+:\d{2}(?:\.\d{2,3})?\]\s*", "", ·)`; other lines count unless
they start with `[`. -/
def countedLyricLine (stripped : Str) : Bool :=
  if matchTsPrefix stripped then
    (match parseTsTag stripped with
     | some pr => pr.2.dropWhile isPyWs
     | none => stripped) ≠ []
  else !(stripped.head? == some '[')

/-- `_count_lyric_lines`. -/
def countLyricLines (content : Str) : Nat :=
  ((splitLines content).map pyStrip).countP (fun l => l ≠ [] && countedLyricLine l)

/-- `NEGATIVE_CACHE_MARKER`. -/
def negativeCacheMarker : Str := "[no lyrics found]".toList

/-- The duration-plausibility part of `_validate_lyrics` for a known duration
`d` (`d = 0` is falsy in Python and skips the check): with timestamps present,
the latest one must lie in `[d * 0.15, d + 30]`. -/
def durationPlausible (content : Str) (d : ℚ) : Bool :=
  if d = 0 then true
  else if !hasLrcTimestamps content then true
  else
    match extractLrcTimestamps content with
    | [] => true
    | t :: ts =>
      let lastTs := ts.foldl max t
      if d + 30 < lastTs then false
      else if lastTs < d * mkRat 15 100 then false
      else true

/-- `_validate_lyrics`.  The `artist`/`title` parameters only feed log
messages in the source and are omitted. -/
def validateLyrics (content : Str) (durationSeconds : Option ℚ) : Bool :=
  let lineCount := countLyricLines content
  if lineCount < 2 then false
  else if 2000 < lineCount then false
  else if strContains (pyLower content) ("<html".toList)
       || strContains (pyLower content) ("<body".toList) then false
  else
    match durationSeconds with
    | none => true
    | some d => durationPlausible content d

/-- Fuelled worker for `removeTags`.  Each step consumes at least one
character, so `fuel = s.length` (as `removeTags` passes) never runs out. -/
def removeTagsAux : Nat → Str → Str
  | 0, s => s
  | _ + 1, [] => []
  | fuel + 1, c :: rest =>
    match parseTsTag (c :: rest) with
    | some pr => removeTagsAux fuel (pr.2.dropWhile isPyWs)
    | none => c :: removeTagsAux fuel rest

/-- One pass of `re.sub(r"\[\d+:\d{2}(?:\.\d{2,3})?\]\s*", "", line)`:
a leftmost scan removing each full timestamp tag together with the trailing
whitespace (unanchored, so tags anywhere in the line are removed). -/
def removeTags (s : Str) : Str := removeTagsAux s.length s

/-- `re.match(r"^\[[a-z]{2}:.+\]$", line, re.IGNORECASE)` on a line:
two ASCII letters, a colon, at least one `.`-matchable character, and a
closing bracket at the end. -/
def isMetadataTag (s : Str) : Bool :=
  match s with
  | '[' :: a :: b :: ':' :: rest =>
    a.isAlpha && b.isAlpha && 2 ≤ rest.length && rest.getLast? == some ']'
      && !rest.dropLast.contains '\n'
  | _ => false

/-- `_strip_lrc_to_plain`, as the list of lines it would join. -/
def stripPlainLines (content : Str) : List Str :=
  (splitLines content).filterMap (fun line =>
    let stripped := pyStrip line
    if stripped = [] then none
    else
      let cleaned := removeTags stripped
      if cleaned ≠ [] ∧ !isMetadataTag cleaned then some (pyStrip (pyLower cleaned))
      else none)

/-- `_strip_lrc_to_plain`. -/
def stripLrcToPlain (content : Str) : Str :=
  List.intercalate ['\n'] (stripPlainLines content)

/-- `_lyrics_similarity`: Jaccard index of the sets of distinct lines of the
plain-text projections, `0` when either projection is empty. -/
def lyricsSimilarity (a b : Str) : ℚ :=
  let pa := stripLrcToPlain a
  let pb := stripLrcToPlain b
  if pa = [] ∨ pb = [] then 0
  else
    let la := (splitLines pa).toFinset
    let lb := (splitLines pb).toFinset
    if la = ∅ ∨ lb = ∅ then 0
    else mkRat ((la ∩ lb).card) ((la ∪ lb).card)

/-! ### Candidate selection -/

/-- A collected lyrics candidate `(lyrics, source, is_synced)`. -/
structure Candidate where
  text : Str
  source : Str
  synced : Bool
deriving DecidableEq

/-- The two accumulators of the cross-validation scan in
`_select_best_candidate`. -/
structure CrossState where
  verifiedSynced : Option (Str × Str)
  verifiedPlain : Option (Str × Str)
deriving DecidableEq

/-- Inner-loop body of the cross-validation scan of `_select_best_candidate`
for one pair `(a, b)` with `i < j`. -/
def crossStep (a b : Candidate) (st : CrossState) : CrossState :=
  if mkRat 35 100 ≤ lyricsSimilarity a.text b.text then
    { verifiedSynced :=
        match st.verifiedSynced with
        | some v => some v
        | none =>
          if a.synced then some (a.text, a.source)
          else if b.synced then some (b.text, b.source)
          else none,
      verifiedPlain :=
        match st.verifiedPlain with
        | some v => some v
        | none => some (a.text, a.source) }
  else st

/-- The ordered `i < j` index pairs scanned by `_select_best_candidate`'s
nested loops, i.e. `(0,1), (0,2), …, (1,2), …` in lexicographic order. -/
def orderedPairs : List Candidate → List (Candidate × Candidate)
  | [] => []
  | a :: rest => rest.map (fun b => (a, b)) ++ orderedPairs rest

/-- `_select_best_candidate`. -/
def selectBestCandidate (cs : List Candidate) : Option (Str × Str) :=
  if cs = [] then none
  else
    let cross :=
      if 2 ≤ cs.length then
        (orderedPairs cs).foldl (fun st p => crossStep p.1 p.2 st) ⟨none, none⟩
      else (⟨none, none⟩ : CrossState)
    match cross.verifiedSynced with
    | some v => some v
    | none =>
      match cross.verifiedPlain with
      | some v => some v
      | none =>
        match cs.find? (fun c => c.synced) with
        | some c => some (c.text, c.source)
        | none =>
          match cs with
          | [] => none
          | c :: _ => some (c.text, c.source)

/-! ### Fuzzy matcher -/

/-- `_fuzzy_match_artist_title`. -/
def fuzzyMatchArtistTitle (resultArtist resultTitle queryArtist queryTitle : Str) : Bool :=
  let ra := normalizeArtist resultArtist
  let rt := normalizeText resultTitle
  let qa := normalizeArtist queryArtist
  let qt := normalizeText queryTitle
  let qtWords := (pyWords qt).toFinset
  let rtWords := (pyWords rt).toFinset
  if qtWords = ∅ then false
  else if mkRat ((qtWords ∩ rtWords).card) (qtWords.card) < mkRat 1 2 then false
  else
    let qaWords := (pyWords qa).toFinset
    let raWords := (pyWords ra).toFinset
    let artistOverlap := (qaWords ∩ raWords).card
    if artistOverlap = 0 ∧ !strContains ra qa ∧ !strContains qa ra then false
    else true

/-! ### Negative cache and filesystem state -/

/-- State of the file at the request's `outputPath`: absent, or present with a
content and an age in days (standing for `(time.time() - st_mtime) / 86400`). -/
inductive FileState where
  | absent
  | present (content : Str) (ageDays : ℚ)
deriving DecidableEq

/-- `_is_negative_cache_valid` (I/O errors, which the source converts to
`False`, are not modelled). -/
def isNegativeCacheValid : FileState → Bool
  | .absent => false
  | .present content age =>
    pyStrip content = negativeCacheMarker && age < 30

/-! ### Source fetchers

The network-dependent part of each fetcher is a request-scoped oracle; the
tag computation each fetcher performs on the payload stays in the embedding,
so only the primary (lrclib) fetcher can ever produce the `instrumental`
sentinel — the other three fetchers' tags are fixed by their code. -/

/-- Per-provider oracles.  `lrclib` yields the full `(lyrics, tag)` result of
`_fetch_from_lrclib` for a `(artist, title, album, duration)` query;
`syncedlyrics` yields the library's optional LRC text; `qqmusic` yields the
decoded, stripped lyric payload of the fuzzy-matched song, if any; and
`webSearch` yields the extracted page text and its domain for the first page
whose extraction succeeds, if any. -/
structure Fetchers where
  lrclib : Str → Str → Option Str → Option ℚ → Option Str × Str
  syncedlyrics : Str → Str → Option Str
  qqmusic : Str → Str → Option ℚ → Option Str
  webSearch : Str → Str → Option ℚ → Option (Str × Str)

/-- `_fetch_from_syncedlyrics`: a non-empty hit is tagged
`syncedlyrics-synced`, anything else is `not_found`. -/
def fetchFromSyncedlyrics (f : Fetchers) (artist title : Str) : Option Str × Str :=
  match f.syncedlyrics artist title with
  | some lrc =>
    if lrc ≠ [] then (some lrc, "syncedlyrics-synced".toList)
    else (none, "not_found".toList)
  | none => (none, "not_found".toList)

/-- Tail of `_fetch_from_qqmusic` once the decoded lyric payload is at hand:
payloads shorter than 20 characters are rejected, the tag records whether the
payload carries LRC timestamps. -/
def fetchFromQQMusic (f : Fetchers) (artist title : Str) (dur : Option ℚ) :
    Option Str × Str :=
  match f.qqmusic artist title dur with
  | some lrc =>
    if lrc.length < 20 then (none, "not_found".toList)
    else if hasLrcTimestamps lrc then (some lrc, "qqmusic-synced".toList)
    else (some lrc, "qqmusic-plain".toList)
  | none => (none, "not_found".toList)

/-- Tail of `_fetch_from_web_search`: the first extracted page text is
returned only if it passes `_validate_lyrics`, tagged `web-<domain>`. -/
def fetchFromWebSearch (f : Fetchers) (artist title : Str) (dur : Option ℚ) :
    Option Str × Str :=
  match f.webSearch artist title dur with
  | some hit =>
    if hit.1 ≠ [] ∧ validateLyrics hit.1 dur then
      (some hit.1, "web-".toList ++ hit.2)
    else (none, "not_found".toList)
  | none => (none, "not_found".toList)

/-! ### Resolution orchestrator -/

/-- Mutable state of `_search_all_sources`: the collected candidates and the
hashes of their plain-text projections. -/
structure SearchState where
  candidates : List Candidate
  seenPlainHashes : List Int
deriving DecidableEq

/-- One fetcher invocation, recorded for the temporal claims: the tier
(1 = lrclib, 2 = syncedlyrics, 3 = qqmusic, 4 = web search), the query
variation used, the number of candidates already collected at call time, and
the tag the fetcher returned. -/
structure FetchEvent where
  tier : Nat
  query : Str × Str
  candidatesBefore : Nat
  tag : Str
deriving DecidableEq

/-- `_try_add`: the returned flag is `true` exactly on the `instrumental`
sentinel; otherwise the result is validated, deduplicated by the hash of its
plain-text projection, and appended with its recomputed synced flag. -/
def tryAdd (hashFn : Str → Int) (dur : Option ℚ) (st : SearchState)
    (lyrics : Option Str) (source : Str) : SearchState × Bool :=
  if source = "instrumental".toList then (st, true)
  else
    match lyrics with
    | none => (st, false)
    | some ly =>
      if ly = [] then (st, false)
      else if !validateLyrics ly dur then (st, false)
      else
        let h := hashFn (stripLrcToPlain ly)
        if h ∈ st.seenPlainHashes then (st, false)
        else ({ candidates := st.candidates ++ [⟨ly, source, hasLrcTimestamps ly⟩],
                seenPlainHashes := h :: st.seenPlainHashes }, false)

/-- Tier 1 of `_search_all_sources`: lrclib over all variations, the album
only on the first call; an instrumental result aborts, two candidates stop
the tier. -/
def tier1 (f : Fetchers) (hashFn : Str → Int) (dur : Option ℚ) :
    List (Str × Str) → Option Str → SearchState →
    SearchState × Bool × List FetchEvent
  | [], _, st => (st, false, [])
  | (a, t) :: rest, album, st =>
    let res := f.lrclib a t album dur
    let ev : FetchEvent := ⟨1, (a, t), st.candidates.length, res.2⟩
    let out := tryAdd hashFn dur st res.1 res.2
    if out.2 then (out.1, true, [ev])
    else if 2 ≤ out.1.candidates.length then (out.1, false, [ev])
    else
      let next := tier1 f hashFn dur rest none out.1
      (next.1, next.2.1, ev :: next.2.2)

/-- Tier 2 of `_search_all_sources`: syncedlyrics over the first three
variations, stopping at two candidates. -/
def tier2 (f : Fetchers) (hashFn : Str → Int) (dur : Option ℚ) :
    List (Str × Str) → SearchState → SearchState × List FetchEvent
  | [], st => (st, [])
  | (a, t) :: rest, st =>
    let res := fetchFromSyncedlyrics f a t
    let ev : FetchEvent := ⟨2, (a, t), st.candidates.length, res.2⟩
    let out := tryAdd hashFn dur st res.1 res.2
    if 2 ≤ out.1.candidates.length then (out.1, [ev])
    else
      let next := tier2 f hashFn dur rest out.1
      (next.1, ev :: next.2)

/-- Tier 3 of `_search_all_sources`: qqmusic over the first two variations,
stopping at two candidates. -/
def tier3 (f : Fetchers) (hashFn : Str → Int) (dur : Option ℚ) :
    List (Str × Str) → SearchState → SearchState × List FetchEvent
  | [], st => (st, [])
  | (a, t) :: rest, st =>
    let res := fetchFromQQMusic f a t dur
    let ev : FetchEvent := ⟨3, (a, t), st.candidates.length, res.2⟩
    let out := tryAdd hashFn dur st res.1 res.2
    if 2 ≤ out.1.candidates.length then (out.1, [ev])
    else
      let next := tier3 f hashFn dur rest out.1
      (next.1, ev :: next.2)

/-- Tier 4 of `_search_all_sources`: web search over the first two
variations, stopping as soon as any candidate exists. -/
def tier4 (f : Fetchers) (hashFn : Str → Int) (dur : Option ℚ) :
    List (Str × Str) → SearchState → SearchState × List FetchEvent
  | [], st => (st, [])
  | (a, t) :: rest, st =>
    let res := fetchFromWebSearch f a t dur
    let ev : FetchEvent := ⟨4, (a, t), st.candidates.length, res.2⟩
    let out := tryAdd hashFn dur st res.1 res.2
    if out.1.candidates ≠ [] then (out.1, [ev])
    else
      let next := tier4 f hashFn dur rest out.1
      (next.1, ev :: next.2)

/-- The guarded tier-2 pass of `_search_all_sources`: syncedlyrics over the
first three variations, entered only while under the 2-candidate quota. -/
def stage2 (f : Fetchers) (hashFn : Str → Int) (dur : Option ℚ)
    (variations : List (Str × Str)) (s : SearchState) :
    SearchState × List FetchEvent :=
  if s.candidates.length < 2 then tier2 f hashFn dur (variations.take 3) s
  else (s, [])

/-- The guarded tier-3 pass of `_search_all_sources`: qqmusic over the first
two variations, entered only while under the 2-candidate quota. -/
def stage3 (f : Fetchers) (hashFn : Str → Int) (dur : Option ℚ)
    (variations : List (Str × Str)) (s : SearchState) :
    SearchState × List FetchEvent :=
  if s.candidates.length < 2 then tier3 f hashFn dur (variations.take 2) s
  else (s, [])

/-- The guarded tier-4 pass of `_search_all_sources`: web search over the
first two variations, entered only when no candidate exists at all. -/
def stage4 (f : Fetchers) (hashFn : Str → Int) (dur : Option ℚ)
    (variations : List (Str × Str)) (s : SearchState) :
    SearchState × List FetchEvent :=
  if s.candidates = [] then tier4 f hashFn dur (variations.take 2) s
  else (s, [])

/-- `_search_all_sources`, instrumented with the list of fetch events:
returns the collected candidates, the instrumental flag, and the trace. -/
def searchAllSources (f : Fetchers) (hashFn : Str → Int) (album : Option Str)
    (dur : Option ℚ) (variations : List (Str × Str)) :
    List Candidate × Bool × List FetchEvent :=
  let r1 := tier1 f hashFn dur variations album ⟨[], []⟩
  if r1.2.1 then ([], true, r1.2.2)
  else
    let r2 := stage2 f hashFn dur variations r1.1
    let r3 := stage3 f hashFn dur variations r2.1
    let r4 := stage4 f hashFn dur variations r3.1
    (r4.1.candidates, false, r1.2.2 ++ r2.2 ++ r3.2 ++ r4.2)

/-! ### The `/api/fetch-lyrics` endpoint -/

/-- The request body (`outputPath` is carried verbatim; the allowlist check
on it is an excluded collaborator). -/
structure LyricsRequest where
  artist : Str
  title : Str
  outputPath : Str
  durationMs : Option Int
  album : Option Str
  force : Bool

/-- The response body. -/
structure LyricsResponse where
  success : Bool
  outputPath : Option Str
  source : Option Str
  synced : Bool
  lyrics : Option Str
deriving DecidableEq

/-- `duration_seconds = request.durationMs / 1000.0 if request.durationMs
else None` (an integer `0` is falsy in Python). -/
def durOf (req : LyricsRequest) : Option ℚ :=
  match req.durationMs with
  | some ms => if ms ≠ 0 then some (mkRat ms 1000) else none
  | none => none

/-- The search-and-persist tail of `fetch_lyrics`, entered once the cache
checks have passed: variation generation, the tiered search, negative-cache
writes on instrumental/exhausted outcomes, and the final file write.
Filesystem writes are modelled as succeeding; a written file has age `0`. -/
def resolveViaSearch (f : Fetchers) (hashFn : Str → Int) (req : LyricsRequest) :
    LyricsResponse × FileState × List FetchEvent :=
  let sr := searchAllSources f hashFn req.album (durOf req)
    (generateQueryVariations req.artist req.title)
  if sr.2.1 then
    ({ success := false, outputPath := none,
       source := some ("instrumental".toList), synced := false,
       lyrics := none }, .present negativeCacheMarker 0, sr.2.2)
  else
    match sr.1 with
    | [] =>
      ({ success := false, outputPath := none,
         source := some ("exhausted".toList), synced := false,
         lyrics := none }, .present negativeCacheMarker 0, sr.2.2)
    | _ =>
      match selectBestCandidate sr.1 with
      | none =>
        ({ success := false, outputPath := none,
           source := some ("exhausted".toList), synced := false,
           lyrics := none }, .present negativeCacheMarker 0, sr.2.2)
      | some chosen =>
        ({ success := true, outputPath := some req.outputPath,
           source := some chosen.2, synced := hasLrcTimestamps chosen.1,
           lyrics := some chosen.1 }, .present chosen.1 0, sr.2.2)

/-- `fetch_lyrics`: returns the response, the final state of the file at
`outputPath`, and the trace of fetcher invocations.  `force` deletes any
existing file first; a pre-existing non-empty, non-marker file is served from
cache (note the source returns the *stripped* content); a valid negative-cache
marker short-circuits; otherwise the search runs. -/
def fetchLyrics (f : Fetchers) (hashFn : Str → Int) (req : LyricsRequest)
    (fs : FileState) : LyricsResponse × FileState × List FetchEvent :=
  let fs1 := if req.force then FileState.absent else fs
  let cachedHit : Option Str :=
    match fs1 with
    | .present content _ =>
      if !req.force ∧ content ≠ [] ∧ pyStrip content ≠ negativeCacheMarker then
        some (pyStrip content)
      else none
    | .absent => none
  match cachedHit with
  | some c =>
    ({ success := true, outputPath := some req.outputPath,
       source := some ("cached".toList), synced := hasLrcTimestamps c,
       lyrics := some c }, fs1, [])
  | none =>
    if !req.force ∧ isNegativeCacheValid fs1 then
      ({ success := false, outputPath := none,
         source := some ("negative-cache".toList), synced := false,
         lyrics := none }, fs1, [])
    else resolveViaSearch f hashFn req

/-! ### Derived notions used to state the claims -/

/-- First defined option. -/
def optFirst {α : Type} : Option α → Option α → Option α
  | some v, _ => some v
  | none, y => y

/-- A pair of candidates is cross-validated when their similarity reaches the
`0.35` threshold. -/
def crossValidated (p : Candidate × Candidate) : Bool :=
  decide (mkRat 35 100 ≤ lyricsSimilarity p.1.text p.2.text)

/-- The synced member (first preferred) a cross-validated pair contributes to
the `verified_synced` accumulator, if any. -/
def syncPick (p : Candidate × Candidate) : Option (Str × Str) :=
  if crossValidated p then
    if p.1.synced then some (p.1.text, p.1.source)
    else if p.2.synced then some (p.2.text, p.2.source)
    else none
  else none

/-- The first member a cross-validated pair contributes to the
`verified_plain` accumulator. -/
def plainPick (p : Candidate × Candidate) : Option (Str × Str) :=
  if crossValidated p then some (p.1.text, p.1.source) else none

/-- Every occurrence of `[` in `s` opens a well-formed timestamp tag
(`[M+:SS]` or `[M+:SS.ff(f)]`). -/
def bracketsWellFormed (s : Str) : Bool :=
  s.tails.all (fun t => t.head? != some '[' || (parseTsTag t).isSome)

/-- The title condition of the fuzzy matcher on its own: word overlap
`|query ∩ result| / |query| >= 0.5` over the normalized titles. -/
def titleOverlapOK (resultTitle queryTitle : Str) : Bool :=
  let qtWords := (pyWords (normalizeText queryTitle)).toFinset
  let rtWords := (pyWords (normalizeText resultTitle)).toFinset
  if qtWords = ∅ then false
  else if mkRat ((qtWords ∩ rtWords).card) (qtWords.card) < mkRat 1 2 then false
  else true

/-- Python's `max` over a timestamp list (`0` for the empty list, which the
code never takes the maximum of). -/
def lastTimestamp : List ℚ → ℚ
  | [] => 0
  | t :: ts => ts.foldl max t

/-- The "fewer than 2 candidates" rule of `_select_best_candidate`: the first
synced candidate if any, else the first candidate. -/
def fallbackChoice (cs : List Candidate) : Option (Str × Str) :=
  match cs.find? (fun c => c.synced) with
  | some c => some (c.text, c.source)
  | none =>
    match cs with
    | [] => none
    | c :: _ => some (c.text, c.source)

/-! ### Concrete fixtures for witnesses and counterexamples -/

/-- Fetchers whose primary source yields plain lyrics with a trailing
newline; every other source misses. -/
def plainFetchers : Fetchers where
  lrclib := fun _ _ _ _ => (some ("hello\nworld\n").toList, ("lrclib-plain").toList)
  syncedlyrics := fun _ _ => none
  qqmusic := fun _ _ _ => none
  webSearch := fun _ _ _ => none

/-- Fetchers whose primary source yields plain lyrics with no surrounding
whitespace; every other source misses. -/
def cleanFetchers : Fetchers where
  lrclib := fun _ _ _ _ => (some ("hello\nworld").toList, ("lrclib-plain").toList)
  syncedlyrics := fun _ _ => none
  qqmusic := fun _ _ _ => none
  webSearch := fun _ _ _ => none

/-- Fetchers whose primary source reports the instrumental sentinel. -/
def instrumentalFetchers : Fetchers where
  lrclib := fun _ _ _ _ => (none, ("instrumental").toList)
  syncedlyrics := fun _ _ => none
  qqmusic := fun _ _ _ => none
  webSearch := fun _ _ _ => none

/-- Fetchers that all miss. -/
def missFetchers : Fetchers where
  lrclib := fun _ _ _ _ => (none, ("not_found").toList)
  syncedlyrics := fun _ _ => none
  qqmusic := fun _ _ _ => none
  webSearch := fun _ _ _ => none

/-- A request for artist `a`, title `b`, no album and no duration. -/
def demoRequest : LyricsRequest :=
  ⟨("a").toList, ("b").toList, ("/media/x.lrc").toList, none, none, false⟩

/-- A concrete stand-in for Python's `hash` over the plain-text projection:
any fixed function works, the engine only compares hashes for equality. -/
def demoHash : Str → Int := fun s => (s.length : Int)

/-! ## Helper lemmas: options and `findSome?` -/

theorem optFirst_none_right {α : Type} (x : Option α) : optFirst x none = x := by
  cases x <;> rfl

theorem optFirst_assoc {α : Type} (x y z : Option α) :
    optFirst (optFirst x y) z = optFirst x (optFirst y z) := by
  cases x <;> rfl

theorem findSome?_cons_optFirst {α β : Type} (f : α → Option β) (a : α) (l : List α) :
    List.findSome? f (a :: l) = optFirst (f a) (List.findSome? f l) := by
  rw [List.findSome?_cons]
  cases f a <;> rfl

theorem exists_of_findSome?_some {α β : Type} {f : α → Option β} {l : List α} {b : β}
    (h : l.findSome? f = some b) : ∃ a ∈ l, f a = some b := by
  induction l with
  | nil => simp [List.findSome?_nil] at h
  | cons a l ih =>
    rw [findSome?_cons_optFirst] at h
    cases hf : f a with
    | some v =>
      rw [hf] at h
      injection h with h1
      exact ⟨a, by simp, by rw [hf, h1]⟩
    | none =>
      rw [hf] at h
      obtain ⟨x, hx, hfx⟩ := ih h
      exact ⟨x, by simp [hx], hfx⟩

theorem findSome?_none_of {α β : Type} {f : α → Option β} {l : List α}
    (h : ∀ a ∈ l, f a = none) : l.findSome? f = none := by
  induction l with
  | nil => simp [List.findSome?_nil]
  | cons a l ih =>
    rw [findSome?_cons_optFirst, h a (by simp)]
    exact ih (fun x hx => h x (by simp [hx]))

/-! ## Helper lemmas: the candidate selector -/

theorem crossStep_eq (a b : Candidate) (st : CrossState) :
    crossStep a b st =
      ⟨optFirst st.verifiedSynced (syncPick (a, b)),
       optFirst st.verifiedPlain (plainPick (a, b))⟩ := by
  rcases st with ⟨vs, vp⟩
  by_cases hc : mkRat 35 100 ≤ lyricsSimilarity a.text b.text
  · cases vs <;> cases vp <;>
      simp [crossStep, syncPick, plainPick, crossValidated, hc, optFirst]
  · cases vs <;> cases vp <;>
      simp [crossStep, syncPick, plainPick, crossValidated, hc, optFirst]

theorem foldl_crossStep_eq (L : List (Candidate × Candidate)) :
    ∀ st : CrossState,
      L.foldl (fun st p => crossStep p.1 p.2 st) st =
        ⟨optFirst st.verifiedSynced (L.findSome? syncPick),
         optFirst st.verifiedPlain (L.findSome? plainPick)⟩ := by
  induction L with
  | nil =>
    intro st
    cases st
    simp [List.findSome?_nil, optFirst_none_right]
  | cons p L ih =>
    intro st
    rw [List.foldl_cons, ih, crossStep_eq]
    rw [findSome?_cons_optFirst, findSome?_cons_optFirst]
    simp only [optFirst_assoc]

theorem findSome?_plainPick (L : List (Candidate × Candidate)) :
    L.findSome? plainPick
      = (L.find? crossValidated).map (fun p => (p.1.text, p.1.source)) := by
  induction L with
  | nil => rfl
  | cons p L ih =>
    rw [findSome?_cons_optFirst, List.find?_cons]
    by_cases hc : crossValidated p
    · simp [plainPick, hc, optFirst]
    · simp [plainPick, hc, optFirst, ih]

theorem select_of_lt_two {cs : List Candidate} (h : cs.length < 2) :
    selectBestCandidate cs = fallbackChoice cs := by
  match cs with
  | [] => rfl
  | [c] => simp [selectBestCandidate, fallbackChoice]
  | a :: b :: t => exact absurd h (by simp)

theorem select_of_ge_two {cs : List Candidate} (h : 2 ≤ cs.length) :
    selectBestCandidate cs =
      optFirst ((orderedPairs cs).findSome? syncPick)
        (optFirst ((orderedPairs cs).findSome? plainPick) (fallbackChoice cs)) := by
  have hne : cs ≠ [] := by
    intro hnil
    rw [hnil] at h
    simp at h
  unfold selectBestCandidate
  rw [if_neg hne, if_pos h, foldl_crossStep_eq]
  cases hX : (orderedPairs cs).findSome? syncPick <;>
    cases hY : (orderedPairs cs).findSome? plainPick <;>
      simp [optFirst, fallbackChoice]

theorem orderedPairs_mem {cs : List Candidate} {p : Candidate × Candidate}
    (h : p ∈ orderedPairs cs) : p.1 ∈ cs ∧ p.2 ∈ cs := by
  induction cs with
  | nil => simp [orderedPairs] at h
  | cons a rest ih =>
    simp only [orderedPairs, List.mem_append, List.mem_map] at h
    rcases h with ⟨b, hb, hp⟩ | h
    · subst hp
      exact ⟨by simp, by simp [hb]⟩
    · obtain ⟨h1, h2⟩ := ih h
      exact ⟨by simp [h1], by simp [h2]⟩

theorem fallbackChoice_mem {cs : List Candidate} {v : Str × Str}
    (h : fallbackChoice cs = some v) : ∃ c ∈ cs, v = (c.text, c.source) := by
  unfold fallbackChoice at h
  cases hf : cs.find? (fun c => c.synced) with
  | some c =>
    rw [hf] at h
    injection h with h1
    exact ⟨c, List.mem_of_find?_eq_some hf, h1.symm⟩
  | none =>
    rw [hf] at h
    match cs, h with
    | c :: rest, h =>
      injection h with h1
      exact ⟨c, by simp, h1.symm⟩

theorem syncPick_mem {p : Candidate × Candidate} {v : Str × Str}
    (h : syncPick p = some v) :
    crossValidated p = true
      ∧ ∃ c, (c = p.1 ∨ c = p.2) ∧ c.synced = true ∧ v = (c.text, c.source) := by
  unfold syncPick at h
  by_cases hc : crossValidated p
  · refine ⟨hc, ?_⟩
    rw [if_pos hc] at h
    by_cases h1 : p.1.synced
    · rw [if_pos h1] at h
      injection h with hv
      exact ⟨p.1, Or.inl rfl, h1, hv.symm⟩
    · rw [if_neg h1] at h
      by_cases h2 : p.2.synced
      · rw [if_pos h2] at h
        injection h with hv
        exact ⟨p.2, Or.inr rfl, h2, hv.symm⟩
      · rw [if_neg h2] at h
        exact absurd h (by simp)
  · rw [if_neg hc] at h
    exact absurd h (by simp)

theorem select_text_mem {cs : List Candidate} {v : Str × Str}
    (h : selectBestCandidate cs = some v) : ∃ c ∈ cs, v = (c.text, c.source) := by
  by_cases h2 : 2 ≤ cs.length
  · rw [select_of_ge_two h2] at h
    cases hX : (orderedPairs cs).findSome? syncPick with
    | some w =>
      rw [hX] at h
      injection h with h1
      subst h1
      obtain ⟨p, hp, hpick⟩ := exists_of_findSome?_some hX
      obtain ⟨_, c, hc, _, hv⟩ := syncPick_mem hpick
      rcases hc with hc | hc
      · exact ⟨c, by have := (orderedPairs_mem hp).1; rw [hc]; exact this, hv⟩
      · exact ⟨c, by have := (orderedPairs_mem hp).2; rw [hc]; exact this, hv⟩
    | none =>
      rw [hX] at h
      cases hY : (orderedPairs cs).findSome? plainPick with
      | some w =>
        rw [hY] at h
        injection h with h1
        subst h1
        obtain ⟨p, hp, hpick⟩ := exists_of_findSome?_some hY
        unfold plainPick at hpick
        by_cases hc : crossValidated p
        · rw [if_pos hc] at hpick
          injection hpick with hv
          exact ⟨p.1, (orderedPairs_mem hp).1, hv.symm⟩
        · rw [if_neg hc] at hpick
          exact absurd hpick (by simp)
      | none =>
        rw [hY] at h
        exact fallbackChoice_mem h
  · rw [select_of_lt_two (by omega)] at h
    exact fallbackChoice_mem h

theorem forall_none_of_findSome?_none {α β : Type} {f : α → Option β} {l : List α}
    (h : l.findSome? f = none) : ∀ a ∈ l, f a = none := by
  induction l with
  | nil => simp
  | cons a l ih =>
    rw [findSome?_cons_optFirst] at h
    cases hf : f a with
    | some v => rw [hf] at h; simp [optFirst] at h
    | none =>
      rw [hf, optFirst] at h
      intro x hx
      rcases List.mem_cons.mp hx with hx | hx
      · rw [hx]; exact hf
      · exact ih h x hx

theorem strContains_nil (hay : Str) : strContains hay [] = true := by
  cases hay <;> simp [strContains, List.tails]

/-! ## Claims about the candidate selector and the fuzzy matcher -/

/-- C2: for every candidate list, with fewer than 2 candidates `select`
returns the first synced candidate if any else the first candidate
(`fallbackChoice`); with 2 or more candidates, pairs with similarity `≥ 0.35`
(in `i < j` lexicographic order, `orderedPairs`) are cross-validated, a synced
member of a cross-validated pair is returned when one exists, otherwise the
first member of the first cross-validated pair, and when no pair
cross-validates the fewer-than-2 rule applies to the full list. -/
theorem claim_C2_selector (cs : List Candidate) :
    (cs.length < 2 → selectBestCandidate cs = fallbackChoice cs)
    ∧ (2 ≤ cs.length →
        ((∃ p ∈ orderedPairs cs, crossValidated p = true
            ∧ (p.1.synced = true ∨ p.2.synced = true)) →
          ∃ p ∈ orderedPairs cs, crossValidated p = true
            ∧ ∃ c, (c = p.1 ∨ c = p.2) ∧ c.synced = true
              ∧ selectBestCandidate cs = some (c.text, c.source))
        ∧ ((∀ p ∈ orderedPairs cs, crossValidated p = true →
              p.1.synced = false ∧ p.2.synced = false) →
            (match (orderedPairs cs).find? crossValidated with
             | some p => selectBestCandidate cs = some (p.1.text, p.1.source)
             | none => selectBestCandidate cs = fallbackChoice cs))) := by
  refine ⟨select_of_lt_two, fun h2 => ⟨?_, ?_⟩⟩
  · intro hEx
    cases hX : (orderedPairs cs).findSome? syncPick with
    | none =>
      exfalso
      obtain ⟨p, hp, hc, hsync⟩ := hEx
      have hnone := forall_none_of_findSome?_none hX p hp
      unfold syncPick at hnone
      rw [if_pos hc] at hnone
      rcases hsync with hs | hs
      · rw [if_pos hs] at hnone; exact absurd hnone (by simp)
      · by_cases h1 : p.1.synced
        · rw [if_pos h1] at hnone; exact absurd hnone (by simp)
        · rw [if_neg h1, if_pos hs] at hnone; exact absurd hnone (by simp)
    | some v =>
      obtain ⟨p, hp, hpick⟩ := exists_of_findSome?_some hX
      obtain ⟨hc, c, hcp, hcs, hv⟩ := syncPick_mem hpick
      refine ⟨p, hp, hc, c, hcp, hcs, ?_⟩
      rw [select_of_ge_two h2, hX, ← hv]
      rfl
  · intro hAll
    have hS : (orderedPairs cs).findSome? syncPick = none := by
      apply findSome?_none_of
      intro p hp
      unfold syncPick
      by_cases hc : crossValidated p
      · rw [if_pos hc]
        obtain ⟨f1, f2⟩ := hAll p hp hc
        rw [f1, f2]
        simp
      · rw [if_neg hc]
    cases hF : (orderedPairs cs).find? crossValidated with
    | some p =>
      rw [select_of_ge_two h2, hS, findSome?_plainPick, hF]
      rfl
    | none =>
      rw [select_of_ge_two h2, hS, findSome?_plainPick, hF]
      rfl

/-- Witness for C2 on the cross-validation scenario of the spec: a plain and
a synced candidate sharing 2 of 5 distinct lines (similarity `0.4 ≥ 0.35`);
the selector must return the synced member. -/
theorem claim_C2_selector_witness :
    ∃ p ∈ orderedPairs
        [⟨("one\ntwo\nex\nwhy").toList, ("lrclib-plain").toList, false⟩,
         ⟨("[00:10]one\n[00:20]two\n[00:30]three").toList,
          ("syncedlyrics-synced").toList, true⟩],
      crossValidated p = true
        ∧ ∃ c, (c = p.1 ∨ c = p.2) ∧ c.synced = true
          ∧ selectBestCandidate
              [⟨("one\ntwo\nex\nwhy").toList, ("lrclib-plain").toList, false⟩,
               ⟨("[00:10]one\n[00:20]two\n[00:30]three").toList,
                ("syncedlyrics-synced").toList, true⟩] = some (c.text, c.source) :=
  ((claim_C2_selector _).2 (by decide)).1 (by decide)

/-- C10: when the query artist string normalizes to the empty string, the
artist condition of `_fuzzy_match_artist_title` is always satisfied (the empty
string is a substring of every candidate artist), so the match is decided
solely by the title word-overlap threshold. -/
theorem claim_C10_empty_artist (queryArtist : Str)
    (h : normalizeArtist queryArtist = []) :
    ∀ resultArtist resultTitle queryTitle,
      fuzzyMatchArtistTitle resultArtist resultTitle queryArtist queryTitle
        = titleOverlapOK resultTitle queryTitle := by
  intro resultArtist resultTitle queryTitle
  by_cases hq : (pyWords (normalizeText queryTitle)).toFinset = ∅
  · simp [fuzzyMatchArtistTitle, titleOverlapOK, h, hq]
  · by_cases hov : mkRat (((pyWords (normalizeText queryTitle)).toFinset
        ∩ (pyWords (normalizeText resultTitle)).toFinset).card)
          ((pyWords (normalizeText queryTitle)).toFinset.card) < mkRat 1 2
    · simp only [fuzzyMatchArtistTitle, titleOverlapOK, h]
      rw [if_neg hq, if_neg hq, if_pos hov, if_pos hov]
    · simp only [fuzzyMatchArtistTitle, titleOverlapOK, h]
      rw [if_neg hq, if_neg hq, if_neg hov, if_neg hov, if_neg]
      intro hcond
      have h2 := hcond.2.1
      rw [strContains_nil] at h2
      simp at h2

/-- Witness for C10: the artist `!!!` normalizes to the empty string (its
characters are stripped as punctuation), so matching is pure title overlap. -/
theorem claim_C10_empty_artist_witness :
    fuzzyMatchArtistTitle ("Beatles").toList ("Let It Be").toList
        ("!!!").toList ("let it be").toList
      = titleOverlapOK ("Let It Be").toList ("let it be").toList :=
  claim_C10_empty_artist (("!!!").toList) (by decide)
    (("Beatles").toList) (("Let It Be").toList) (("let it be").toList)

/-! ## Claim about the validator -/

/-- C3: `_validate_lyrics` rejects when the lyric line count is below 2 or
above 2000, rejects texts containing an `<html` or `<body` marker, and — for
a known positive duration and a text carrying timestamps — rejects when the
latest timestamp exceeds `duration + 30` or falls below `duration * 0.15`; at
`durationSeconds = 180` it rejects a last timestamp of 250, rejects one of 20,
and accepts one of 170. -/
theorem claim_C3_validate :
    (∀ t d, countLyricLines t < 2 ∨ 2000 < countLyricLines t →
      validateLyrics t d = false)
    ∧ (∀ t d, (strContains (pyLower t) (("<html").toList)
          || strContains (pyLower t) (("<body").toList)) = true →
        validateLyrics t d = false)
    ∧ (∀ t (d : ℚ), 0 < d → hasLrcTimestamps t = true →
        extractLrcTimestamps t ≠ [] →
        (d + 30 < lastTimestamp (extractLrcTimestamps t)
          ∨ lastTimestamp (extractLrcTimestamps t) < d * mkRat 15 100) →
        validateLyrics t (some d) = false)
    ∧ (validateLyrics (("[0:10]hello\n[4:10]world").toList) (some 180) = false
        ∧ validateLyrics (("[0:10]hello\n[0:20]world").toList) (some 180) = false
        ∧ validateLyrics (("[0:10]hello\n[2:50]world").toList) (some 180) = true) := by
  refine ⟨?_, ?_, ?_, by decide, by decide, by decide⟩
  · intro t d h
    by_cases h1 : countLyricLines t < 2
    · unfold validateLyrics
      rw [if_pos h1]
    · rcases h with h | h
      · exact absurd h h1
      · unfold validateLyrics
        rw [if_neg h1, if_pos h]
  · intro t d hhtml
    unfold validateLyrics
    by_cases h1 : countLyricLines t < 2
    · rw [if_pos h1]
    · rw [if_neg h1]
      by_cases h2 : 2000 < countLyricLines t
      · rw [if_pos h2]
      · rw [if_neg h2, if_pos hhtml]
  · intro t d hd hts hne hcmp
    unfold validateLyrics
    by_cases h1 : countLyricLines t < 2
    · rw [if_pos h1]
    · rw [if_neg h1]
      by_cases h2 : 2000 < countLyricLines t
      · rw [if_pos h2]
      · rw [if_neg h2]
        by_cases h3 : (strContains (pyLower t) (("<html").toList)
            || strContains (pyLower t) (("<body").toList)) = true
        · rw [if_pos h3]
        · rw [if_neg h3]
          show durationPlausible t d = false
          unfold durationPlausible
          have hd0 : ¬(d = 0) := by
            intro h0
            rw [h0] at hd
            exact absurd hd (by norm_num)
          rw [if_neg hd0]
          have hts' : ¬((!hasLrcTimestamps t) = true) := by
            rw [hts]
            simp
          rw [if_neg hts']
          cases hE : extractLrcTimestamps t with
          | nil => exact absurd hE hne
          | cons t0 ts =>
            rw [hE] at hcmp
            have hlast : lastTimestamp (t0 :: ts) = ts.foldl max t0 := rfl
            rw [hlast] at hcmp
            show (if d + 30 < ts.foldl max t0 then false
              else if ts.foldl max t0 < d * mkRat 15 100 then false
              else true) = false
            rcases hcmp with hc | hc
            · rw [if_pos hc]
            · by_cases hc1 : d + 30 < ts.foldl max t0
              · rw [if_pos hc1]
              · rw [if_neg hc1, if_pos hc]

/-- Witness for C3: the timestamp branch applied at duration 180 with last
timestamp 250 (an over-long text), discharging all hypotheses concretely. -/
theorem claim_C3_validate_witness :
    validateLyrics (("[0:10]hello\n[4:10]world").toList) (some 180) = false :=
  claim_C3_validate.2.2.1 (("[0:10]hello\n[4:10]world").toList) 180
    (by norm_num) (by decide) (by decide) (by decide)

/-! ## Claim about the query variation generator -/

/-- Invariant of the `_add` fold: emitted variations have pairwise distinct
case-insensitive keys, every emitted key is recorded in `seen`, and no
emitted component is empty. -/
theorem addVariation_foldl_inv (attempts : List (Str × Str)) :
    ∀ st : VarState,
      ((st.out.map (fun q => (pyLower q.1, pyLower q.2))).Nodup
        ∧ (∀ q ∈ st.out, (pyLower q.1, pyLower q.2) ∈ st.seen)
        ∧ (∀ q ∈ st.out, q.1 ≠ [] ∧ q.2 ≠ [])) →
      (((attempts.foldl addVariation st).out.map
          (fun q => (pyLower q.1, pyLower q.2))).Nodup
        ∧ (∀ q ∈ (attempts.foldl addVariation st).out,
            (pyLower q.1, pyLower q.2) ∈ (attempts.foldl addVariation st).seen)
        ∧ (∀ q ∈ (attempts.foldl addVariation st).out, q.1 ≠ [] ∧ q.2 ≠ [])) := by
  induction attempts with
  | nil => intro st h; exact h
  | cons a attempts ih =>
    intro st h
    rw [List.foldl_cons]
    apply ih
    unfold addVariation
    by_cases hc : ((pyLower (pyStrip a.1), pyLower (pyStrip a.2)) ∉ st.seen
        ∧ pyLower (pyStrip a.1) ≠ [] ∧ pyLower (pyStrip a.2) ≠ [])
    · rw [if_pos hc]
      obtain ⟨hnodup, hseen, hne⟩ := h
      obtain ⟨hnew, hk1, hk2⟩ := hc
      refine ⟨?_, ?_, ?_⟩
      · rw [List.map_append]
        rw [List.nodup_append]
        refine ⟨hnodup, by simp, ?_⟩
        intro x hx
        simp only [List.map_cons, List.map_nil, List.mem_singleton]
        intro hx2
        obtain ⟨q, hq, hfq⟩ := List.mem_map.mp hx
        rw [hx2] at hfq
        exact hnew (hfq ▸ hseen q hq)
      · intro q hq
        rcases List.mem_append.mp hq with hq | hq
        · exact List.mem_cons_of_mem _ (hseen q hq)
        · simp only [List.mem_singleton] at hq
          rw [hq]
          exact List.mem_cons_self _ _
      · intro q hq
        rcases List.mem_append.mp hq with hq | hq
        · exact hne q hq
        · simp only [List.mem_singleton] at hq
          rw [hq]
          constructor
          · intro h0
            apply hk1
            have h0' : pyStrip a.1 = [] := h0
            rw [h0']
            rfl
          · intro h0
            apply hk2
            have h0' : pyStrip a.2 = [] := h0
            rw [h0']
            rfl
    · rw [if_neg hc]
      exact h

/-- C6 amended: the variation list for `("The Beatles", "Let It Be
(Remastered 2009)")` contains the exact pair, the noise-stripped pair, and —
because case-insensitive deduplication keeps the earlier-cased spelling — the
pair `("beatles", "Let It Be")` (not `("beatles", "let it be")` as claimed);
in general variations are deduplicated case-insensitively on the pair and
variations with an empty artist or title after stripping are discarded. -/
theorem claim_C6_variations :
    ((("The Beatles").toList, ("Let It Be (Remastered 2009)").toList)
        ∈ generateQueryVariations (("The Beatles").toList)
            (("Let It Be (Remastered 2009)").toList))
    ∧ ((("The Beatles").toList, ("Let It Be").toList)
        ∈ generateQueryVariations (("The Beatles").toList)
            (("Let It Be (Remastered 2009)").toList))
    ∧ ((("beatles").toList, ("Let It Be").toList)
        ∈ generateQueryVariations (("The Beatles").toList)
            (("Let It Be (Remastered 2009)").toList))
    ∧ ∀ artist title,
        (((generateQueryVariations artist title).map
            (fun q => (pyLower q.1, pyLower q.2))).Nodup
          ∧ ∀ q ∈ generateQueryVariations artist title, q.1 ≠ [] ∧ q.2 ≠ []) := by
  refine ⟨by decide, by decide, by decide, ?_⟩
  intro artist title
  have base : (([] : List (Str × Str)).map
        (fun q => (pyLower q.1, pyLower q.2))).Nodup
      ∧ (∀ q ∈ ([] : List (Str × Str)), (pyLower q.1, pyLower q.2)
          ∈ ([] : List (Str × Str)))
      ∧ (∀ q ∈ ([] : List (Str × Str)), q.1 ≠ [] ∧ q.2 ≠ []) := by
    simp
  have main := addVariation_foldl_inv (variationAttempts artist title) ⟨[], []⟩ base
  exact ⟨main.1, main.2.2⟩

/-- Counterexample for C6 as stated: the lower-cased pair
`("beatles", "let it be")` is not among the generated variations — the
case-insensitive deduplication keeps `("beatles", "Let It Be")`, whose key it
shares. -/
theorem claim_C6_variations_counterexample :
    ((("beatles").toList, ("let it be").toList)
        ∉ generateQueryVariations (("The Beatles").toList)
            (("Let It Be (Remastered 2009)").toList)) := by
  decide

/-- Witness for C6: the nonemptiness facts applied to a generated variation. -/
theorem claim_C6_variations_witness :
    (("The Beatles").toList, ("Let It Be").toList).1 ≠ []
      ∧ (("The Beatles").toList, ("Let It Be").toList).2 ≠ [] :=
  (claim_C6_variations.2.2.2 (("The Beatles").toList)
      (("Let It Be (Remastered 2009)").toList)).2
    ((("The Beatles").toList, ("Let It Be").toList)) (by decide)

/-! ## Claim about the plain-text projection -/

/-- A successful `parseTsTag` consumes at least one character. -/
theorem parseTsTag_length {s : Str} {pr : ℚ × Str} (h : parseTsTag s = some pr) :
    pr.2.length < s.length := by
  unfold parseTsTag at h
  split at h
  next rest =>
    have hdw := (@List.dropWhile_suffix _ rest Char.isDigit).length_le
    split at h
    · simp at h
    · split at h <;>
        [skip; skip; skip; simp at h] <;>
        · rename_i heq
          split at h
          · injection h with h1
            subst h1
            have hlen := congrArg List.length heq
            simp at hlen ⊢
            omega
          · simp at h
  next => simp at h

/-- The remainder of a successful `parseTsTag` is a suffix of the input. -/
theorem parseTsTag_suffix_of {s : Str} {pr : ℚ × Str} (h : parseTsTag s = some pr) :
    pr.2 <:+ s := by
  obtain ⟨prv, prr⟩ := pr
  show prr <:+ s
  unfold parseTsTag at h
  split at h
  next rest =>
    split at h
    · simp at h
    · split at h <;>
        [skip; skip; skip; simp at h] <;>
        · rename_i heq
          split at h
          · injection h with h1
            injection h1 with h1a h1b
            subst h1b
            refine List.IsSuffix.trans ?_
              ((@List.dropWhile_suffix _ rest Char.isDigit).trans
                (List.suffix_cons '[' rest))
            rw [heq]
            simp [List.suffix_cons_iff]
          · simp at h
  next => simp at h

/-- `bracketsWellFormed` passes to suffixes. -/
theorem bracketsWellFormed_suffix {s t : Str} (hs : t <:+ s)
    (h : bracketsWellFormed s = true) : bracketsWellFormed t = true := by
  unfold bracketsWellFormed at *
  rw [List.all_eq_true] at *
  intro u hu
  exact h u ((List.mem_tails _ _).mpr (((List.mem_tails _ _).mp hu).trans hs))

/-- A line with no `[` cannot start with a timestamp prefix. -/
theorem matchTsPrefix_eq_false {l : Str} (h : '[' ∉ l) : matchTsPrefix l = false := by
  match l with
  | [] => rfl
  | c :: rest =>
    have hc : c ≠ '[' := fun hceq => h (hceq ▸ List.mem_cons_self _ _)
    rw [matchTsPrefix.eq_def]
    split
    next heq =>
      injection heq with h1
      exact absurd h1 hc
    next => rfl

/-- When every `[` in the line opens a well-formed tag, the tag-removal scan
leaves no `[` behind. -/
theorem removeTagsAux_no_bracket (fuel : Nat) : ∀ s : Str, s.length ≤ fuel →
    bracketsWellFormed s = true → '[' ∉ removeTagsAux fuel s := by
  induction fuel with
  | zero =>
    intro s hl _
    have hnil : s = [] := List.eq_nil_of_length_eq_zero (Nat.le_zero.mp hl)
    rw [hnil]
    simp [removeTagsAux]
  | succ fuel ih =>
    intro s hl hgood
    match s with
    | [] => simp [removeTagsAux]
    | c :: rest =>
      cases hp : parseTsTag (c :: rest) with
      | some pr =>
        have hres : removeTagsAux (fuel + 1) (c :: rest)
            = removeTagsAux fuel (pr.2.dropWhile isPyWs) := by
          rw [removeTagsAux, hp]
        rw [hres]
        have hlen : (pr.2.dropWhile isPyWs).length ≤ fuel := by
          have h1 := (@List.dropWhile_suffix _ pr.2 isPyWs).length_le
          have h2 := parseTsTag_length hp
          simp only [List.length_cons] at h2 hl
          omega
        have hsfx : pr.2.dropWhile isPyWs <:+ c :: rest :=
          (List.dropWhile_suffix _).trans (parseTsTag_suffix_of hp)
        exact ih _ hlen (bracketsWellFormed_suffix hsfx hgood)
      | none =>
        have hres : removeTagsAux (fuel + 1) (c :: rest)
            = c :: removeTagsAux fuel rest := by
          rw [removeTagsAux, hp]
        rw [hres]
        have hc : c ≠ '[' := by
          intro hceq
          subst hceq
          have hall := (List.all_eq_true.mp hgood) ('[' :: rest)
            ((List.mem_tails _ _).mpr (List.suffix_refl _))
          simp [hp] at hall
        intro hmem
        rcases List.mem_cons.mp hmem with hmem | hmem
        · exact hc hmem.symm
        · have hlen : rest.length ≤ fuel := by
            simp only [List.length_cons] at hl
            omega
          exact ih rest hlen
            (bracketsWellFormed_suffix (List.suffix_cons _ _) hgood) hmem

/-- `pyLower` introduces no `[` (no character lower-cases to a bracket). -/
theorem pyLower_no_bracket {l : Str} (h : '[' ∉ l) : '[' ∉ pyLower l := by
  intro hmem
  obtain ⟨c, hc, hlow⟩ := List.mem_map.mp hmem
  apply h
  have hcb : c = '[' := by
    by_cases hrange : c.toNat ≥ 65 ∧ c.toNat ≤ 90
    · exfalso
      have hlow2 : Char.toLower c = Char.ofNat (c.toNat + 32) := by
        unfold Char.toLower
        rw [if_pos hrange]
      rw [hlow2] at hlow
      have hofn : Char.ofNat c.toNat = c := Char.ofNat_toNat c
      obtain ⟨hr1, hr2⟩ := hrange
      set n := c.toNat with hn
      clear hlow2 hc hmem h
      interval_cases n <;> exact absurd hlow (by decide)
    · have hlow2 : Char.toLower c = c := by
        unfold Char.toLower
        rw [if_neg hrange]
      rw [hlow2] at hlow
      exact hlow
  rw [← hcb]
  exact hc

/-- `pyStrip` introduces no `[`. -/
theorem pyStrip_no_bracket {l : Str} (h : '[' ∉ l) : '[' ∉ pyStrip l := by
  intro hmem
  apply h
  unfold pyStrip at hmem
  rw [List.mem_reverse] at hmem
  have h1 := (@List.dropWhile_suffix _ (l.dropWhile isPyWs).reverse isPyWs).subset hmem
  rw [List.mem_reverse] at h1
  exact (@List.dropWhile_suffix _ l isPyWs).subset h1

/-- A member of an interspersed list is a piece or the separator. -/
theorem mem_intersperse_nl : ∀ (ls : List Str) (piece : Str),
    piece ∈ List.intersperse ['\n'] ls → piece ∈ ls ∨ piece = ['\n']
  | [], _, h => by simp at h
  | [a], piece, h => by
    simp at h
    exact Or.inl (by simp [h])
  | a :: b :: t, piece, h => by
    rw [List.intersperse_cons₂] at h
    rcases List.mem_cons.mp h with hp | hp
    · exact Or.inl (by simp [hp])
    · rcases List.mem_cons.mp hp with hp | hp
      · exact Or.inr hp
      · rcases mem_intersperse_nl (b :: t) piece hp with hin | hsep
        · exact Or.inl (List.mem_cons_of_mem _ hin)
        · exact Or.inr hsep

/-- Joining `[`-free lines with newlines yields a `[`-free string. -/
theorem intercalate_nl_no_bracket {ls : List Str}
    (h : ∀ l ∈ ls, '[' ∉ l) : '[' ∉ List.intercalate ['\n'] ls := by
  intro hmem
  rw [List.intercalate, List.mem_flatten] at hmem
  obtain ⟨piece, hpiece, hc⟩ := hmem
  rcases mem_intersperse_nl ls piece hpiece with hin | hsep
  · exact h piece hin hc
  · rw [hsep] at hc
    simp at hc

/-- C7 amended: `stripToPlain` removes every well-formed timestamp tag, so for
any text in which each `[` opens a well-formed tag, the projection contains no
`[` at all — in particular no output line begins with a `[digits:digits]` tag.
(The unrestricted claim fails: removal can splice a new tag together, see the
counterexample.) -/
theorem claim_C7_strip_to_plain (content : Str)
    (hgood : ∀ line ∈ splitLines content, bracketsWellFormed (pyStrip line) = true) :
    '[' ∉ stripLrcToPlain content
      ∧ ∀ l ∈ stripPlainLines content, '[' ∉ l ∧ matchTsPrefix l = false := by
  have hlines : ∀ l ∈ stripPlainLines content, '[' ∉ l := by
    intro l hl
    unfold stripPlainLines at hl
    obtain ⟨line, hline, hmk⟩ := List.mem_filterMap.mp hl
    by_cases hstrip : pyStrip line = []
    · rw [if_pos hstrip] at hmk
      exact absurd hmk (by simp)
    · rw [if_neg hstrip] at hmk
      by_cases hkeep : removeTags (pyStrip line) ≠ []
          ∧ !isMetadataTag (removeTags (pyStrip line))
      · rw [if_pos hkeep] at hmk
        injection hmk with hmk
        rw [← hmk]
        have hclean : '[' ∉ removeTags (pyStrip line) :=
          removeTagsAux_no_bracket _ _ le_rfl (hgood line hline)
        exact pyStrip_no_bracket (pyLower_no_bracket hclean)
      · rw [if_neg hkeep] at hmk
        exact absurd hmk (by simp)
  refine ⟨intercalate_nl_no_bracket hlines, fun l hl => ?_⟩
  exact ⟨hlines l hl, matchTsPrefix_eq_false (hlines l hl)⟩

/-- Counterexample for C7 as stated: removing the embedded tag `[0:11]` from
`[1[0:11]2:33]x` splices the remaining characters into `[12:33]x`, so the
projection does begin with a well-formed `[digits:digits]` timestamp tag. -/
theorem claim_C7_strip_to_plain_counterexample :
    stripLrcToPlain (("[1[0:11]2:33]x").toList) = ("[12:33]x").toList
      ∧ matchTsPrefix (stripLrcToPlain (("[1[0:11]2:33]x").toList)) = true
      ∧ (parseTsTag (stripLrcToPlain (("[1[0:11]2:33]x").toList))).isSome = true := by
  refine ⟨by decide, by decide, by decide⟩

/-- Witness for C7 on a well-formed LRC text. -/
theorem claim_C7_strip_to_plain_witness :
    '[' ∉ stripLrcToPlain (("[00:10]Hello\n[00:20]World").toList) :=
  (claim_C7_strip_to_plain (("[00:10]Hello\n[00:20]World").toList) (by decide)).1

/-! ## Orchestrator lemmas: `_try_add` -/

theorem tryAdd_snd (hashFn : Str → Int) (dur : Option ℚ) (st : SearchState)
    (ly : Option Str) (src : Str) :
    (tryAdd hashFn dur st ly src).2 = true ↔ src = "instrumental".toList := by
  simp only [tryAdd]
  by_cases hs : src = "instrumental".toList
  · rw [if_pos hs]
    simp [hs]
  · rw [if_neg hs]
    split
    · simpa using hs
    · split
      · simpa using hs
      · split
        · simpa using hs
        · split
          · simpa using hs
          · simpa using hs

theorem tryAdd_inv (hashFn : Str → Int) (dur : Option ℚ) (st : SearchState)
    (ly : Option Str) (src : Str)
    (h1 : ∀ cd ∈ st.candidates, validateLyrics cd.text dur = true)
    (h2 : (st.candidates.map fun cd => hashFn (stripLrcToPlain cd.text)).Nodup)
    (h3 : ∀ cd ∈ st.candidates,
      hashFn (stripLrcToPlain cd.text) ∈ st.seenPlainHashes) :
    (∀ cd ∈ (tryAdd hashFn dur st ly src).1.candidates,
      validateLyrics cd.text dur = true)
    ∧ ((tryAdd hashFn dur st ly src).1.candidates.map
        fun cd => hashFn (stripLrcToPlain cd.text)).Nodup
    ∧ (∀ cd ∈ (tryAdd hashFn dur st ly src).1.candidates,
      hashFn (stripLrcToPlain cd.text)
        ∈ (tryAdd hashFn dur st ly src).1.seenPlainHashes)
    ∧ (tryAdd hashFn dur st ly src).1.candidates.length
        ≤ st.candidates.length + 1 := by
  simp only [tryAdd]
  split
  next => exact ⟨h1, h2, h3, Nat.le_succ _⟩
  next =>
    split
    next => exact ⟨h1, h2, h3, Nat.le_succ _⟩
    next l =>
      split
      next => exact ⟨h1, h2, h3, Nat.le_succ _⟩
      next =>
        split
        next => exact ⟨h1, h2, h3, Nat.le_succ _⟩
        next hval =>
          split
          next => exact ⟨h1, h2, h3, Nat.le_succ _⟩
          next hh =>
            have hv : validateLyrics l dur = true := by
              simpa using hval
            refine ⟨?_, ?_, ?_, ?_⟩
            · intro cd hcd
              rcases List.mem_append.mp hcd with hm | hm
              · exact h1 cd hm
              · rcases List.mem_singleton.mp hm with rfl
                exact hv
            · rw [List.map_append, List.nodup_append]
              refine ⟨h2, List.nodup_singleton _, ?_⟩
              intro x hx hy
              rcases List.mem_map.mp hx with ⟨cd, hcd, rfl⟩
              have hseen : hashFn (stripLrcToPlain cd.text) ∈ st.seenPlainHashes :=
                h3 cd hcd
              simp only [List.map_cons, List.map_nil, List.mem_singleton] at hy
              exact hh (hy ▸ hseen)
            · intro cd hcd
              rcases List.mem_append.mp hcd with hm | hm
              · exact List.mem_cons_of_mem _ (h3 cd hm)
              · rcases List.mem_singleton.mp hm with rfl
                exact List.mem_cons_self _ _
            · simp

/-! ## Orchestrator lemmas: fetcher tags -/

theorem fetchFromSyncedlyrics_tag (f : Fetchers) (a t : Str) :
    (fetchFromSyncedlyrics f a t).2 = "syncedlyrics-synced".toList ∨
    (fetchFromSyncedlyrics f a t).2 = "not_found".toList := by
  unfold fetchFromSyncedlyrics
  split
  · split
    · left; rfl
    · right; rfl
  · right; rfl

theorem fetchFromQQMusic_tag (f : Fetchers) (a t : Str) (dur : Option ℚ) :
    (fetchFromQQMusic f a t dur).2 = "not_found".toList ∨
    (fetchFromQQMusic f a t dur).2 = "qqmusic-synced".toList ∨
    (fetchFromQQMusic f a t dur).2 = "qqmusic-plain".toList := by
  unfold fetchFromQQMusic
  split
  · split
    · left; rfl
    · split
      · right; left; rfl
      · right; right; rfl
  · left; rfl

theorem fetchFromWebSearch_tag (f : Fetchers) (a t : Str) (dur : Option ℚ) :
    (fetchFromWebSearch f a t dur).2 = "not_found".toList ∨
    ∃ d, (fetchFromWebSearch f a t dur).2 = "web-".toList ++ d := by
  unfold fetchFromWebSearch
  split
  next hit heq =>
    split
    · right; exact ⟨hit.2, rfl⟩
    · left; rfl
  next => left; rfl

theorem web_tag_ne_instr (d : Str) :
    "web-".toList ++ d ≠ "instrumental".toList := by
  intro h
  have hh := congrArg List.head? h
  rw [show ("web-").toList = 'w' :: 'e' :: 'b' :: '-' :: ([] : Str) from rfl] at hh
  rw [show ("instrumental").toList =
    'i' :: 'n' :: 's' :: 't' :: 'r' :: 'u' :: 'm' :: 'e' :: 'n' :: 't' :: 'a'
      :: 'l' :: ([] : Str) from rfl] at hh
  simp only [List.cons_append, List.head?_cons, Option.some.injEq] at hh
  exact absurd hh (by decide)

theorem tags_of_guard {c : Prop} [Decidable c]
    {pr : SearchState × List FetchEvent} {s : SearchState}
    {P : FetchEvent → Prop} (hp : ∀ e ∈ pr.2, P e) :
    ∀ e ∈ (if c then pr else (s, [])).2, P e := by
  by_cases hc : c
  · rw [if_pos hc]; exact hp
  · rw [if_neg hc]; intro e he; simp at he

/-! ## Orchestrator lemmas: per-tier invariants -/

theorem tier1_props (f : Fetchers) (hashFn : Str → Int) (dur : Option ℚ)
    (vars : List (Str × Str)) : ∀ (album : Option Str) (st : SearchState),
    (∀ cd ∈ st.candidates, validateLyrics cd.text dur = true) →
    ((st.candidates.map fun cd => hashFn (stripLrcToPlain cd.text)).Nodup) →
    (∀ cd ∈ st.candidates,
      hashFn (stripLrcToPlain cd.text) ∈ st.seenPlainHashes) →
    st.candidates.length < 2 →
    (∀ cd ∈ (tier1 f hashFn dur vars album st).1.candidates,
      validateLyrics cd.text dur = true)
    ∧ (((tier1 f hashFn dur vars album st).1.candidates.map
        fun cd => hashFn (stripLrcToPlain cd.text)).Nodup)
    ∧ (∀ cd ∈ (tier1 f hashFn dur vars album st).1.candidates,
      hashFn (stripLrcToPlain cd.text)
        ∈ (tier1 f hashFn dur vars album st).1.seenPlainHashes)
    ∧ (tier1 f hashFn dur vars album st).1.candidates.length ≤ 2 := by
  induction vars with
  | nil =>
    intro album st h1 h2 h3 hlen
    exact ⟨h1, h2, h3, hlen.le⟩
  | cons q rest ih =>
    obtain ⟨a, t⟩ := q
    intro album st h1 h2 h3 hlen
    obtain ⟨g1, g2, g3, g4⟩ := tryAdd_inv hashFn dur st
      (f.lrclib a t album dur).1 (f.lrclib a t album dur).2 h1 h2 h3
    have glen : (tryAdd hashFn dur st (f.lrclib a t album dur).1
        (f.lrclib a t album dur).2).1.candidates.length ≤ 2 :=
      le_trans g4 hlen
    simp only [tier1]
    by_cases hb : (tryAdd hashFn dur st (f.lrclib a t album dur).1
        (f.lrclib a t album dur).2).2 = true
    · rw [if_pos hb]
      exact ⟨g1, g2, g3, glen⟩
    · rw [if_neg hb]
      by_cases hq : 2 ≤ (tryAdd hashFn dur st (f.lrclib a t album dur).1
          (f.lrclib a t album dur).2).1.candidates.length
      · rw [if_pos hq]
        exact ⟨g1, g2, g3, glen⟩
      · rw [if_neg hq]
        exact ih none _ g1 g2 g3 (Nat.lt_of_not_le hq)

theorem tier2_props (f : Fetchers) (hashFn : Str → Int) (dur : Option ℚ)
    (vs : List (Str × Str)) : ∀ st : SearchState,
    (∀ cd ∈ st.candidates, validateLyrics cd.text dur = true) →
    ((st.candidates.map fun cd => hashFn (stripLrcToPlain cd.text)).Nodup) →
    (∀ cd ∈ st.candidates,
      hashFn (stripLrcToPlain cd.text) ∈ st.seenPlainHashes) →
    st.candidates.length < 2 →
    (∀ cd ∈ (tier2 f hashFn dur vs st).1.candidates,
      validateLyrics cd.text dur = true)
    ∧ (((tier2 f hashFn dur vs st).1.candidates.map
        fun cd => hashFn (stripLrcToPlain cd.text)).Nodup)
    ∧ (∀ cd ∈ (tier2 f hashFn dur vs st).1.candidates,
      hashFn (stripLrcToPlain cd.text)
        ∈ (tier2 f hashFn dur vs st).1.seenPlainHashes)
    ∧ (tier2 f hashFn dur vs st).1.candidates.length ≤ 2 := by
  induction vs with
  | nil =>
    intro st h1 h2 h3 hlen
    exact ⟨h1, h2, h3, hlen.le⟩
  | cons q rest ih =>
    obtain ⟨a, t⟩ := q
    intro st h1 h2 h3 hlen
    obtain ⟨g1, g2, g3, g4⟩ := tryAdd_inv hashFn dur st
      (fetchFromSyncedlyrics f a t).1 (fetchFromSyncedlyrics f a t).2 h1 h2 h3
    have glen : (tryAdd hashFn dur st (fetchFromSyncedlyrics f a t).1
        (fetchFromSyncedlyrics f a t).2).1.candidates.length ≤ 2 :=
      le_trans g4 hlen
    simp only [tier2]
    by_cases hq : 2 ≤ (tryAdd hashFn dur st (fetchFromSyncedlyrics f a t).1
        (fetchFromSyncedlyrics f a t).2).1.candidates.length
    · rw [if_pos hq]
      exact ⟨g1, g2, g3, glen⟩
    · rw [if_neg hq]
      exact ih _ g1 g2 g3 (Nat.lt_of_not_le hq)

theorem tier3_props (f : Fetchers) (hashFn : Str → Int) (dur : Option ℚ)
    (vs : List (Str × Str)) : ∀ st : SearchState,
    (∀ cd ∈ st.candidates, validateLyrics cd.text dur = true) →
    ((st.candidates.map fun cd => hashFn (stripLrcToPlain cd.text)).Nodup) →
    (∀ cd ∈ st.candidates,
      hashFn (stripLrcToPlain cd.text) ∈ st.seenPlainHashes) →
    st.candidates.length < 2 →
    (∀ cd ∈ (tier3 f hashFn dur vs st).1.candidates,
      validateLyrics cd.text dur = true)
    ∧ (((tier3 f hashFn dur vs st).1.candidates.map
        fun cd => hashFn (stripLrcToPlain cd.text)).Nodup)
    ∧ (∀ cd ∈ (tier3 f hashFn dur vs st).1.candidates,
      hashFn (stripLrcToPlain cd.text)
        ∈ (tier3 f hashFn dur vs st).1.seenPlainHashes)
    ∧ (tier3 f hashFn dur vs st).1.candidates.length ≤ 2 := by
  induction vs with
  | nil =>
    intro st h1 h2 h3 hlen
    exact ⟨h1, h2, h3, hlen.le⟩
  | cons q rest ih =>
    obtain ⟨a, t⟩ := q
    intro st h1 h2 h3 hlen
    obtain ⟨g1, g2, g3, g4⟩ := tryAdd_inv hashFn dur st
      (fetchFromQQMusic f a t dur).1 (fetchFromQQMusic f a t dur).2 h1 h2 h3
    have glen : (tryAdd hashFn dur st (fetchFromQQMusic f a t dur).1
        (fetchFromQQMusic f a t dur).2).1.candidates.length ≤ 2 :=
      le_trans g4 hlen
    simp only [tier3]
    by_cases hq : 2 ≤ (tryAdd hashFn dur st (fetchFromQQMusic f a t dur).1
        (fetchFromQQMusic f a t dur).2).1.candidates.length
    · rw [if_pos hq]
      exact ⟨g1, g2, g3, glen⟩
    · rw [if_neg hq]
      exact ih _ g1 g2 g3 (Nat.lt_of_not_le hq)

theorem tier4_props (f : Fetchers) (hashFn : Str → Int) (dur : Option ℚ)
    (vs : List (Str × Str)) : ∀ st : SearchState,
    (∀ cd ∈ st.candidates, validateLyrics cd.text dur = true) →
    ((st.candidates.map fun cd => hashFn (stripLrcToPlain cd.text)).Nodup) →
    (∀ cd ∈ st.candidates,
      hashFn (stripLrcToPlain cd.text) ∈ st.seenPlainHashes) →
    st.candidates.length < 2 →
    (∀ cd ∈ (tier4 f hashFn dur vs st).1.candidates,
      validateLyrics cd.text dur = true)
    ∧ (((tier4 f hashFn dur vs st).1.candidates.map
        fun cd => hashFn (stripLrcToPlain cd.text)).Nodup)
    ∧ (∀ cd ∈ (tier4 f hashFn dur vs st).1.candidates,
      hashFn (stripLrcToPlain cd.text)
        ∈ (tier4 f hashFn dur vs st).1.seenPlainHashes)
    ∧ (tier4 f hashFn dur vs st).1.candidates.length ≤ 2 := by
  induction vs with
  | nil =>
    intro st h1 h2 h3 hlen
    exact ⟨h1, h2, h3, hlen.le⟩
  | cons q rest ih =>
    obtain ⟨a, t⟩ := q
    intro st h1 h2 h3 hlen
    obtain ⟨g1, g2, g3, g4⟩ := tryAdd_inv hashFn dur st
      (fetchFromWebSearch f a t dur).1 (fetchFromWebSearch f a t dur).2 h1 h2 h3
    have glen : (tryAdd hashFn dur st (fetchFromWebSearch f a t dur).1
        (fetchFromWebSearch f a t dur).2).1.candidates.length ≤ 2 :=
      le_trans g4 hlen
    simp only [tier4]
    by_cases hne : (tryAdd hashFn dur st (fetchFromWebSearch f a t dur).1
        (fetchFromWebSearch f a t dur).2).1.candidates ≠ []
    · rw [if_pos hne]
      exact ⟨g1, g2, g3, glen⟩
    · rw [if_neg hne]
      have h0 : (tryAdd hashFn dur st (fetchFromWebSearch f a t dur).1
          (fetchFromWebSearch f a t dur).2).1.candidates = [] := not_not.mp hne
      exact ih _ g1 g2 g3 (by rw [h0]; simp)

/-! ## Orchestrator lemmas: per-tier event traces -/

theorem tier1_instr (f : Fetchers) (hashFn : Str → Int) (dur : Option ℚ)
    (vars : List (Str × Str)) : ∀ (album : Option Str) (st : SearchState),
    ((tier1 f hashFn dur vars album st).2.1 = true ↔
      ∃ e ∈ (tier1 f hashFn dur vars album st).2.2,
        e.tag = "instrumental".toList)
    ∧ ((tier1 f hashFn dur vars album st).2.1 = true →
      ∃ e, (tier1 f hashFn dur vars album st).2.2.getLast? = some e
        ∧ e.tag = "instrumental".toList) := by
  induction vars with
  | nil =>
    intro album st
    constructor
    · simp [tier1]
    · intro h; simp [tier1] at h
  | cons q rest ih =>
    obtain ⟨a, t⟩ := q
    intro album st
    simp only [tier1]
    by_cases hb : (tryAdd hashFn dur st (f.lrclib a t album dur).1
        (f.lrclib a t album dur).2).2 = true
    · rw [if_pos hb]
      have hsrc : (f.lrclib a t album dur).2 = "instrumental".toList :=
        (tryAdd_snd hashFn dur st (f.lrclib a t album dur).1
          (f.lrclib a t album dur).2).mp hb
      refine ⟨⟨fun _ => ?_, fun _ => rfl⟩, fun _ => ?_⟩
      · exact ⟨⟨1, (a, t), st.candidates.length, (f.lrclib a t album dur).2⟩,
          List.mem_singleton.mpr rfl, hsrc⟩
      · exact ⟨⟨1, (a, t), st.candidates.length, (f.lrclib a t album dur).2⟩,
          by simp, hsrc⟩
    · rw [if_neg hb]
      have hsrc : (f.lrclib a t album dur).2 ≠ "instrumental".toList := by
        intro hc
        exact hb ((tryAdd_snd hashFn dur st (f.lrclib a t album dur).1
          (f.lrclib a t album dur).2).mpr hc)
      by_cases hq : 2 ≤ (tryAdd hashFn dur st (f.lrclib a t album dur).1
          (f.lrclib a t album dur).2).1.candidates.length
      · rw [if_pos hq]
        refine ⟨⟨fun hfalse => ?_, fun he => ?_⟩, fun hfalse => ?_⟩
        · simp at hfalse
        · obtain ⟨e, hm, ht⟩ := he
          have hev := List.mem_singleton.mp hm
          rw [hev] at ht
          exact absurd ht hsrc
        · simp at hfalse
      · rw [if_neg hq]
        obtain ⟨ih1, ih2⟩ := ih none (tryAdd hashFn dur st
          (f.lrclib a t album dur).1 (f.lrclib a t album dur).2).1
        refine ⟨⟨fun hflag => ?_, fun he => ?_⟩, fun hflag => ?_⟩
        · obtain ⟨e, hm, ht⟩ := ih1.mp hflag
          exact ⟨e, List.mem_cons_of_mem _ hm, ht⟩
        · obtain ⟨e, hm, ht⟩ := he
          rcases List.mem_cons.mp hm with hev | hm'
          · rw [hev] at ht
            exact absurd ht hsrc
          · exact ih1.mpr ⟨e, hm', ht⟩
        · obtain ⟨e, hl, ht⟩ := ih2 hflag
          refine ⟨e, ?_, ht⟩
          cases hnx : (tier1 f hashFn dur rest none (tryAdd hashFn dur st
              (f.lrclib a t album dur).1 (f.lrclib a t album dur).2).1).2.2 with
          | nil => rw [hnx] at hl; simp at hl
          | cons b l =>
            rw [hnx] at hl
            simp only [List.getLast?_cons_cons]
            exact hl

theorem tier1_tier (f : Fetchers) (hashFn : Str → Int) (dur : Option ℚ)
    (vars : List (Str × Str)) : ∀ (album : Option Str) (st : SearchState)
    (e : FetchEvent), e ∈ (tier1 f hashFn dur vars album st).2.2 →
    e.tier = 1 := by
  induction vars with
  | nil => intro album st e he; simp [tier1] at he
  | cons q rest ih =>
    obtain ⟨a, t⟩ := q
    intro album st e he
    simp only [tier1] at he
    by_cases hb : (tryAdd hashFn dur st (f.lrclib a t album dur).1
        (f.lrclib a t album dur).2).2 = true
    · rw [if_pos hb] at he
      rw [List.mem_singleton.mp he]
    · rw [if_neg hb] at he
      by_cases hq : 2 ≤ (tryAdd hashFn dur st (f.lrclib a t album dur).1
          (f.lrclib a t album dur).2).1.candidates.length
      · rw [if_pos hq] at he
        rw [List.mem_singleton.mp he]
      · rw [if_neg hq] at he
        rcases List.mem_cons.mp he with hev | hm
        · rw [hev]
        · exact ih none _ e hm

theorem tier2_tags (f : Fetchers) (hashFn : Str → Int) (dur : Option ℚ)
    (vs : List (Str × Str)) : ∀ (st : SearchState) (e : FetchEvent),
    e ∈ (tier2 f hashFn dur vs st).2 →
    e.tier = 2 ∧ e.tag ≠ "instrumental".toList := by
  induction vs with
  | nil => intro st e he; simp [tier2] at he
  | cons q rest ih =>
    obtain ⟨a, t⟩ := q
    intro st e he
    have htagne : (fetchFromSyncedlyrics f a t).2 ≠ "instrumental".toList := by
      rcases fetchFromSyncedlyrics_tag f a t with h | h <;> rw [h] <;> decide
    simp only [tier2] at he
    by_cases hq : 2 ≤ (tryAdd hashFn dur st (fetchFromSyncedlyrics f a t).1
        (fetchFromSyncedlyrics f a t).2).1.candidates.length
    · rw [if_pos hq] at he
      rw [List.mem_singleton.mp he]
      exact ⟨rfl, htagne⟩
    · rw [if_neg hq] at he
      rcases List.mem_cons.mp he with hev | hm
      · rw [hev]; exact ⟨rfl, htagne⟩
      · exact ih _ e hm

theorem tier3_tags (f : Fetchers) (hashFn : Str → Int) (dur : Option ℚ)
    (vs : List (Str × Str)) : ∀ (st : SearchState) (e : FetchEvent),
    e ∈ (tier3 f hashFn dur vs st).2 →
    e.tier = 3 ∧ e.tag ≠ "instrumental".toList := by
  induction vs with
  | nil => intro st e he; simp [tier3] at he
  | cons q rest ih =>
    obtain ⟨a, t⟩ := q
    intro st e he
    have htagne : (fetchFromQQMusic f a t dur).2 ≠ "instrumental".toList := by
      rcases fetchFromQQMusic_tag f a t dur with h | h | h <;> rw [h] <;> decide
    simp only [tier3] at he
    by_cases hq : 2 ≤ (tryAdd hashFn dur st (fetchFromQQMusic f a t dur).1
        (fetchFromQQMusic f a t dur).2).1.candidates.length
    · rw [if_pos hq] at he
      rw [List.mem_singleton.mp he]
      exact ⟨rfl, htagne⟩
    · rw [if_neg hq] at he
      rcases List.mem_cons.mp he with hev | hm
      · rw [hev]; exact ⟨rfl, htagne⟩
      · exact ih _ e hm

theorem tier4_tags (f : Fetchers) (hashFn : Str → Int) (dur : Option ℚ)
    (vs : List (Str × Str)) : ∀ (st : SearchState) (e : FetchEvent),
    e ∈ (tier4 f hashFn dur vs st).2 →
    e.tier = 4 ∧ e.tag ≠ "instrumental".toList := by
  induction vs with
  | nil => intro st e he; simp [tier4] at he
  | cons q rest ih =>
    obtain ⟨a, t⟩ := q
    intro st e he
    have htagne : (fetchFromWebSearch f a t dur).2 ≠ "instrumental".toList := by
      rcases fetchFromWebSearch_tag f a t dur with h | ⟨d, h⟩
      · rw [h]; decide
      · rw [h]; exact web_tag_ne_instr d
    simp only [tier4] at he
    by_cases hne : (tryAdd hashFn dur st (fetchFromWebSearch f a t dur).1
        (fetchFromWebSearch f a t dur).2).1.candidates ≠ []
    · rw [if_pos hne] at he
      rw [List.mem_singleton.mp he]
      exact ⟨rfl, htagne⟩
    · rw [if_neg hne] at he
      rcases List.mem_cons.mp he with hev | hm
      · rw [hev]; exact ⟨rfl, htagne⟩
      · exact ih _ e hm

theorem tier4_facts (f : Fetchers) (hashFn : Str → Int) (dur : Option ℚ)
    (vs : List (Str × Str)) : ∀ st : SearchState, st.candidates = [] →
    (∀ e ∈ (tier4 f hashFn dur vs st).2,
      e.candidatesBefore = 0 ∧ e.query ∈ vs)
    ∧ (tier4 f hashFn dur vs st).2.length ≤ vs.length := by
  induction vs with
  | nil =>
    intro st h0
    refine ⟨fun e he => ?_, by simp [tier4]⟩
    simp [tier4] at he
  | cons q rest ih =>
    obtain ⟨a, t⟩ := q
    intro st h0
    have hbefore : st.candidates.length = 0 := by rw [h0]; rfl
    simp only [tier4]
    by_cases hne : (tryAdd hashFn dur st (fetchFromWebSearch f a t dur).1
        (fetchFromWebSearch f a t dur).2).1.candidates ≠ []
    · rw [if_pos hne]
      refine ⟨fun e he => ?_, by simp⟩
      rw [List.mem_singleton.mp he]
      exact ⟨hbefore, List.mem_cons_self _ _⟩
    · rw [if_neg hne]
      have h0' : (tryAdd hashFn dur st (fetchFromWebSearch f a t dur).1
          (fetchFromWebSearch f a t dur).2).1.candidates = [] := not_not.mp hne
      obtain ⟨ihA, ihB⟩ := ih _ h0'
      constructor
      · intro e he
        rcases List.mem_cons.mp he with hev | hm
        · rw [hev]
          exact ⟨hbefore, List.mem_cons_self _ _⟩
        · obtain ⟨e1, e2⟩ := ihA e hm
          exact ⟨e1, List.mem_cons_of_mem _ e2⟩
      · simp only [List.length_cons]
        exact Nat.succ_le_succ ihB

/-! ## Orchestrator lemmas: guarded stages -/

theorem filter_eq_nil_of {α : Type} (p : α → Bool) : ∀ l : List α,
    (∀ e ∈ l, p e = false) → l.filter p = [] := by
  intro l
  induction l with
  | nil => intro _; rfl
  | cons a l ih =>
    intro h
    rw [List.filter_cons, h a (List.mem_cons_self _ _),
      if_neg Bool.false_ne_true]
    exact ih (fun e he => h e (List.mem_cons_of_mem _ he))

theorem filterlen4_le {A B C D : List FetchEvent} {p : FetchEvent → Bool}
    (hA : ∀ e ∈ A, p e = false) (hB : ∀ e ∈ B, p e = false)
    (hC : ∀ e ∈ C, p e = false) (hD : D.length ≤ 2) :
    ((A ++ B ++ C ++ D).filter p).length ≤ 2 := by
  rw [List.filter_append, List.filter_append, List.filter_append,
    filter_eq_nil_of p A hA, filter_eq_nil_of p B hB, filter_eq_nil_of p C hC]
  simp only [List.nil_append]
  exact le_trans (List.length_filter_le _ _) hD

theorem stage2_props (f : Fetchers) (hashFn : Str → Int) (dur : Option ℚ)
    (vars : List (Str × Str)) (s : SearchState)
    (h1 : ∀ cd ∈ s.candidates, validateLyrics cd.text dur = true)
    (h2 : (s.candidates.map fun cd => hashFn (stripLrcToPlain cd.text)).Nodup)
    (h3 : ∀ cd ∈ s.candidates,
      hashFn (stripLrcToPlain cd.text) ∈ s.seenPlainHashes)
    (hlen : s.candidates.length ≤ 2) :
    (∀ cd ∈ (stage2 f hashFn dur vars s).1.candidates,
      validateLyrics cd.text dur = true)
    ∧ (((stage2 f hashFn dur vars s).1.candidates.map
        fun cd => hashFn (stripLrcToPlain cd.text)).Nodup)
    ∧ (∀ cd ∈ (stage2 f hashFn dur vars s).1.candidates,
      hashFn (stripLrcToPlain cd.text)
        ∈ (stage2 f hashFn dur vars s).1.seenPlainHashes)
    ∧ (stage2 f hashFn dur vars s).1.candidates.length ≤ 2 := by
  unfold stage2
  by_cases hc : s.candidates.length < 2
  · rw [if_pos hc]
    exact tier2_props f hashFn dur (vars.take 3) s h1 h2 h3 hc
  · rw [if_neg hc]
    exact ⟨h1, h2, h3, hlen⟩

theorem stage3_props (f : Fetchers) (hashFn : Str → Int) (dur : Option ℚ)
    (vars : List (Str × Str)) (s : SearchState)
    (h1 : ∀ cd ∈ s.candidates, validateLyrics cd.text dur = true)
    (h2 : (s.candidates.map fun cd => hashFn (stripLrcToPlain cd.text)).Nodup)
    (h3 : ∀ cd ∈ s.candidates,
      hashFn (stripLrcToPlain cd.text) ∈ s.seenPlainHashes)
    (hlen : s.candidates.length ≤ 2) :
    (∀ cd ∈ (stage3 f hashFn dur vars s).1.candidates,
      validateLyrics cd.text dur = true)
    ∧ (((stage3 f hashFn dur vars s).1.candidates.map
        fun cd => hashFn (stripLrcToPlain cd.text)).Nodup)
    ∧ (∀ cd ∈ (stage3 f hashFn dur vars s).1.candidates,
      hashFn (stripLrcToPlain cd.text)
        ∈ (stage3 f hashFn dur vars s).1.seenPlainHashes)
    ∧ (stage3 f hashFn dur vars s).1.candidates.length ≤ 2 := by
  unfold stage3
  by_cases hc : s.candidates.length < 2
  · rw [if_pos hc]
    exact tier3_props f hashFn dur (vars.take 2) s h1 h2 h3 hc
  · rw [if_neg hc]
    exact ⟨h1, h2, h3, hlen⟩

theorem stage4_props (f : Fetchers) (hashFn : Str → Int) (dur : Option ℚ)
    (vars : List (Str × Str)) (s : SearchState)
    (h1 : ∀ cd ∈ s.candidates, validateLyrics cd.text dur = true)
    (h2 : (s.candidates.map fun cd => hashFn (stripLrcToPlain cd.text)).Nodup)
    (h3 : ∀ cd ∈ s.candidates,
      hashFn (stripLrcToPlain cd.text) ∈ s.seenPlainHashes)
    (hlen : s.candidates.length ≤ 2) :
    (∀ cd ∈ (stage4 f hashFn dur vars s).1.candidates,
      validateLyrics cd.text dur = true)
    ∧ (((stage4 f hashFn dur vars s).1.candidates.map
        fun cd => hashFn (stripLrcToPlain cd.text)).Nodup)
    ∧ (∀ cd ∈ (stage4 f hashFn dur vars s).1.candidates,
      hashFn (stripLrcToPlain cd.text)
        ∈ (stage4 f hashFn dur vars s).1.seenPlainHashes)
    ∧ (stage4 f hashFn dur vars s).1.candidates.length ≤ 2 := by
  unfold stage4
  by_cases hc : s.candidates = []
  · rw [if_pos hc]
    exact tier4_props f hashFn dur (vars.take 2) s h1 h2 h3 (by rw [hc]; simp)
  · rw [if_neg hc]
    exact ⟨h1, h2, h3, hlen⟩

theorem stage2_tags (f : Fetchers) (hashFn : Str → Int) (dur : Option ℚ)
    (vars : List (Str × Str)) : ∀ (s : SearchState) (e : FetchEvent),
    e ∈ (stage2 f hashFn dur vars s).2 →
    e.tier = 2 ∧ e.tag ≠ "instrumental".toList := by
  intro s e he
  unfold stage2 at he
  by_cases hc : s.candidates.length < 2
  · rw [if_pos hc] at he
    exact tier2_tags f hashFn dur (vars.take 3) s e he
  · rw [if_neg hc] at he
    exact absurd he (List.not_mem_nil e)

theorem stage3_tags (f : Fetchers) (hashFn : Str → Int) (dur : Option ℚ)
    (vars : List (Str × Str)) : ∀ (s : SearchState) (e : FetchEvent),
    e ∈ (stage3 f hashFn dur vars s).2 →
    e.tier = 3 ∧ e.tag ≠ "instrumental".toList := by
  intro s e he
  unfold stage3 at he
  by_cases hc : s.candidates.length < 2
  · rw [if_pos hc] at he
    exact tier3_tags f hashFn dur (vars.take 2) s e he
  · rw [if_neg hc] at he
    exact absurd he (List.not_mem_nil e)

theorem stage4_tags (f : Fetchers) (hashFn : Str → Int) (dur : Option ℚ)
    (vars : List (Str × Str)) : ∀ (s : SearchState) (e : FetchEvent),
    e ∈ (stage4 f hashFn dur vars s).2 →
    e.tier = 4 ∧ e.tag ≠ "instrumental".toList := by
  intro s e he
  unfold stage4 at he
  by_cases hc : s.candidates = []
  · rw [if_pos hc] at he
    exact tier4_tags f hashFn dur (vars.take 2) s e he
  · rw [if_neg hc] at he
    exact absurd he (List.not_mem_nil e)

theorem stage4_facts (f : Fetchers) (hashFn : Str → Int) (dur : Option ℚ)
    (vars : List (Str × Str)) (s : SearchState) :
    (∀ e ∈ (stage4 f hashFn dur vars s).2,
      e.candidatesBefore = 0 ∧ e.query ∈ vars.take 2)
    ∧ (stage4 f hashFn dur vars s).2.length ≤ 2 := by
  unfold stage4
  by_cases hc : s.candidates = []
  · rw [if_pos hc]
    obtain ⟨hA, hB⟩ := tier4_facts f hashFn dur (vars.take 2) s hc
    refine ⟨hA, le_trans hB ?_⟩
    rw [List.length_take]
    exact min_le_left _ _
  · rw [if_neg hc]
    exact ⟨fun e he => absurd he (List.not_mem_nil e), by simp⟩

/-! ## Orchestrator lemmas: `_search_all_sources` -/

theorem searchAllSources_pos (f : Fetchers) (hashFn : Str → Int)
    (album : Option Str) (dur : Option ℚ) (vars : List (Str × Str))
    (hI : (tier1 f hashFn dur vars album ⟨[], []⟩).2.1 = true) :
    searchAllSources f hashFn album dur vars
      = ([], true, (tier1 f hashFn dur vars album ⟨[], []⟩).2.2) := by
  simp only [searchAllSources, if_pos hI]

theorem searchAllSources_neg (f : Fetchers) (hashFn : Str → Int)
    (album : Option Str) (dur : Option ℚ) (vars : List (Str × Str))
    (hI : ¬ (tier1 f hashFn dur vars album ⟨[], []⟩).2.1 = true) :
    searchAllSources f hashFn album dur vars
      = ((stage4 f hashFn dur vars (stage3 f hashFn dur vars
            (stage2 f hashFn dur vars
              (tier1 f hashFn dur vars album ⟨[], []⟩).1).1).1).1.candidates,
          false,
          (tier1 f hashFn dur vars album ⟨[], []⟩).2.2
            ++ (stage2 f hashFn dur vars
                (tier1 f hashFn dur vars album ⟨[], []⟩).1).2
            ++ (stage3 f hashFn dur vars (stage2 f hashFn dur vars
                (tier1 f hashFn dur vars album ⟨[], []⟩).1).1).2
            ++ (stage4 f hashFn dur vars (stage3 f hashFn dur vars
                (stage2 f hashFn dur vars
                  (tier1 f hashFn dur vars album ⟨[], []⟩).1).1).1).2) := by
  simp only [searchAllSources, if_neg hI]

theorem searchAllSources_props (f : Fetchers) (hashFn : Str → Int)
    (album : Option Str) (dur : Option ℚ) (vars : List (Str × Str)) :
    (∀ cd ∈ (searchAllSources f hashFn album dur vars).1,
      validateLyrics cd.text dur = true)
    ∧ ((searchAllSources f hashFn album dur vars).1.map
        fun cd => hashFn (stripLrcToPlain cd.text)).Nodup
    ∧ (searchAllSources f hashFn album dur vars).1.length ≤ 2 := by
  by_cases hI : (tier1 f hashFn dur vars album ⟨[], []⟩).2.1 = true
  · rw [searchAllSources_pos f hashFn album dur vars hI]
    exact ⟨fun cd h => absurd h (List.not_mem_nil cd), List.nodup_nil,
      by simp⟩
  · rw [searchAllSources_neg f hashFn album dur vars hI]
    obtain ⟨p1, p2, p3, p4⟩ := tier1_props f hashFn dur vars album ⟨[], []⟩
      (fun cd h => absurd h (List.not_mem_nil cd)) List.nodup_nil
      (fun cd h => absurd h (List.not_mem_nil cd)) (by decide)
    obtain ⟨q1, q2, q3, q4⟩ := stage2_props f hashFn dur vars _ p1 p2 p3 p4
    obtain ⟨r1, r2, r3, r4⟩ := stage3_props f hashFn dur vars _ q1 q2 q3 q4
    obtain ⟨w1, w2, w3, w4⟩ := stage4_props f hashFn dur vars _ r1 r2 r3 r4
    exact ⟨w1, w2, w4⟩

theorem searchAllSources_instr (f : Fetchers) (hashFn : Str → Int)
    (album : Option Str) (dur : Option ℚ) (vars : List (Str × Str))
    (h : ∃ e ∈ (searchAllSources f hashFn album dur vars).2.2,
      e.tag = "instrumental".toList) :
    (searchAllSources f hashFn album dur vars).1 = []
    ∧ (searchAllSources f hashFn album dur vars).2.1 = true
    ∧ ∃ e, (searchAllSources f hashFn album dur vars).2.2.getLast? = some e
        ∧ e.tag = "instrumental".toList := by
  by_cases hI : (tier1 f hashFn dur vars album ⟨[], []⟩).2.1 = true
  · rw [searchAllSources_pos f hashFn album dur vars hI]
    exact ⟨rfl, rfl, (tier1_instr f hashFn dur vars album ⟨[], []⟩).2 hI⟩
  · exfalso
    rw [searchAllSources_neg f hashFn album dur vars hI] at h
    obtain ⟨e, he, htag⟩ := h
    rcases List.mem_append.mp he with h123 | h4
    · rcases List.mem_append.mp h123 with h12 | h3
      · rcases List.mem_append.mp h12 with h1 | h2
        · exact hI ((tier1_instr f hashFn dur vars album ⟨[], []⟩).1.mpr
            ⟨e, h1, htag⟩)
        · exact (stage2_tags f hashFn dur vars _ e h2).2 htag
      · exact (stage3_tags f hashFn dur vars _ e h3).2 htag
    · exact (stage4_tags f hashFn dur vars _ e h4).2 htag

theorem searchAllSources_web (f : Fetchers) (hashFn : Str → Int)
    (album : Option Str) (dur : Option ℚ) (vars : List (Str × Str)) :
    (∀ e ∈ (searchAllSources f hashFn album dur vars).2.2,
      e.tier = 4 → e.candidatesBefore = 0 ∧ e.query ∈ vars.take 2)
    ∧ ((searchAllSources f hashFn album dur vars).2.2.filter
        (fun e => e.tier == 4)).length ≤ 2 := by
  by_cases hI : (tier1 f hashFn dur vars album ⟨[], []⟩).2.1 = true
  · rw [searchAllSources_pos f hashFn album dur vars hI]
    constructor
    · intro e he h4t
      have h1t := tier1_tier f hashFn dur vars album ⟨[], []⟩ e he
      rw [h1t] at h4t
      exact absurd h4t (by decide)
    · show ((tier1 f hashFn dur vars album ⟨[], []⟩).2.2.filter
        (fun e => e.tier == 4)).length ≤ 2
      rw [filter_eq_nil_of _ _ (fun e he => by
        simp [tier1_tier f hashFn dur vars album ⟨[], []⟩ e he])]
      simp
  · rw [searchAllSources_neg f hashFn album dur vars hI]
    constructor
    · intro e he h4t
      rcases List.mem_append.mp he with h123 | h4
      · rcases List.mem_append.mp h123 with h12 | h3
        · rcases List.mem_append.mp h12 with h1 | h2
          · have h1t := tier1_tier f hashFn dur vars album ⟨[], []⟩ e h1
            rw [h1t] at h4t
            exact absurd h4t (by decide)
          · have h2t := (stage2_tags f hashFn dur vars _ e h2).1
            rw [h2t] at h4t
            exact absurd h4t (by decide)
        · have h3t := (stage3_tags f hashFn dur vars _ e h3).1
          rw [h3t] at h4t
          exact absurd h4t (by decide)
      · exact (stage4_facts f hashFn dur vars _).1 e h4
    · refine filterlen4_le ?_ ?_ ?_ ?_
      · intro e he
        simp [tier1_tier f hashFn dur vars album ⟨[], []⟩ e he]
      · intro e he
        simp [(stage2_tags f hashFn dur vars _ e he).1]
      · intro e he
        simp [(stage3_tags f hashFn dur vars _ e he).1]
      · exact (stage4_facts f hashFn dur vars _).2

/-! ## Endpoint branch lemmas -/

theorem resolveViaSearch_events (f : Fetchers) (hashFn : Str → Int)
    (req : LyricsRequest) :
    (resolveViaSearch f hashFn req).2.2 =
      (searchAllSources f hashFn req.album (durOf req)
        (generateQueryVariations req.artist req.title)).2.2 := by
  simp only [resolveViaSearch]
  split
  · rfl
  · split
    · rfl
    · split
      · rfl
      · rfl

theorem resolveViaSearch_instr (f : Fetchers) (hashFn : Str → Int)
    (req : LyricsRequest)
    (h : ∃ e ∈ (resolveViaSearch f hashFn req).2.2,
      e.tag = "instrumental".toList) :
    (resolveViaSearch f hashFn req).1 =
      ⟨false, none, some ("instrumental".toList), false, none⟩
    ∧ (resolveViaSearch f hashFn req).2.1
        = FileState.present negativeCacheMarker 0 := by
  rw [resolveViaSearch_events f hashFn req] at h
  obtain ⟨-, h2, -⟩ := searchAllSources_instr f hashFn req.album (durOf req)
    (generateQueryVariations req.artist req.title) h
  simp only [resolveViaSearch]
  rw [if_pos h2]
  exact ⟨rfl, rfl⟩

theorem fetchLyrics_shape (f : Fetchers) (hashFn : Str → Int)
    (req : LyricsRequest) (fs : FileState) :
    (fetchLyrics f hashFn req fs).2.2 = []
    ∨ fetchLyrics f hashFn req fs = resolveViaSearch f hashFn req := by
  simp only [fetchLyrics]
  split
  · left; rfl
  · split
    · split
      · left; rfl
      · right; rfl
    · split
      · left; rfl
      · right; rfl

/-! ## Claims C1, C4, C5 -/

/-- C1: if any source fetcher returns the `instrumental` tag during a
resolution run, the orchestrator aborts the whole search immediately (the
instrumental event is the last of the trace), discards every collected
candidate, and the endpoint returns `{success: false, source:
"instrumental"}` after writing the negative-cache marker. -/
theorem claim_C1_instrumental_abort :
    (∀ (f : Fetchers) (hashFn : Str → Int) (album : Option Str)
        (dur : Option ℚ) (vars : List (Str × Str)),
      (∃ e ∈ (searchAllSources f hashFn album dur vars).2.2,
        e.tag = "instrumental".toList) →
      (searchAllSources f hashFn album dur vars).1 = []
      ∧ (searchAllSources f hashFn album dur vars).2.1 = true
      ∧ ∃ e, (searchAllSources f hashFn album dur vars).2.2.getLast? = some e
          ∧ e.tag = "instrumental".toList)
    ∧ (∀ (f : Fetchers) (hashFn : Str → Int) (req : LyricsRequest)
        (fs : FileState),
      (∃ e ∈ (fetchLyrics f hashFn req fs).2.2,
        e.tag = "instrumental".toList) →
      (fetchLyrics f hashFn req fs).1 =
        ⟨false, none, some ("instrumental".toList), false, none⟩
      ∧ (fetchLyrics f hashFn req fs).2.1
          = FileState.present negativeCacheMarker 0) := by
  constructor
  · exact searchAllSources_instr
  · intro f hashFn req fs h
    rcases fetchLyrics_shape f hashFn req fs with hsh | hsh
    · rw [hsh] at h
      obtain ⟨e, he, -⟩ := h
      exact absurd he (List.not_mem_nil e)
    · rw [hsh] at h ⊢
      exact resolveViaSearch_instr f hashFn req h

theorem claim_C1_instrumental_abort_witness :
    (∃ e ∈ (fetchLyrics instrumentalFetchers demoHash demoRequest .absent).2.2,
      e.tag = "instrumental".toList)
    ∧ (fetchLyrics instrumentalFetchers demoHash demoRequest .absent).1 =
        ⟨false, none, some ("instrumental".toList), false, none⟩
    ∧ (fetchLyrics instrumentalFetchers demoHash demoRequest .absent).2.1
        = FileState.present negativeCacheMarker 0 :=
  ⟨by decide, claim_C1_instrumental_abort.2 instrumentalFetchers demoHash
    demoRequest .absent (by decide)⟩

/-- C4: the candidate list a resolution run hands to the selector contains
only entries that passed `_validate_lyrics` at admission time, no two entries
with equal plain-text-projection hashes, and never more than 2 entries. -/
theorem claim_C4_candidate_invariants (f : Fetchers) (hashFn : Str → Int)
    (album : Option Str) (dur : Option ℚ) (vars : List (Str × Str)) :
    (∀ cd ∈ (searchAllSources f hashFn album dur vars).1,
      validateLyrics cd.text dur = true)
    ∧ ((searchAllSources f hashFn album dur vars).1.map
        fun cd => hashFn (stripLrcToPlain cd.text)).Nodup
    ∧ (searchAllSources f hashFn album dur vars).1.length ≤ 2 :=
  searchAllSources_props f hashFn album dur vars

theorem claim_C4_candidate_invariants_witness :
    (searchAllSources plainFetchers demoHash none none
        [(("a").toList, ("b").toList)]).1.length = 1
    ∧ (∀ cd ∈ (searchAllSources plainFetchers demoHash none none
        [(("a").toList, ("b").toList)]).1,
      validateLyrics cd.text none = true) :=
  ⟨by decide, (claim_C4_candidate_invariants plainFetchers demoHash none none
    [(("a").toList, ("b").toList)]).1⟩

/-- C5: the web-search fallback tier runs only in states with zero collected
candidates (each tier-4 event records `candidatesBefore = 0` and a query among
the first 2 variations), and at most 2 tier-4 fetches happen per run. -/
theorem claim_C5_web_fallback (f : Fetchers) (hashFn : Str → Int)
    (album : Option Str) (dur : Option ℚ) (vars : List (Str × Str)) :
    (∀ e ∈ (searchAllSources f hashFn album dur vars).2.2,
      e.tier = 4 → e.candidatesBefore = 0 ∧ e.query ∈ vars.take 2)
    ∧ ((searchAllSources f hashFn album dur vars).2.2.filter
        (fun e => e.tier == 4)).length ≤ 2 :=
  searchAllSources_web f hashFn album dur vars

theorem claim_C5_web_fallback_witness :
    (∃ e ∈ (searchAllSources missFetchers demoHash none none
        [(("a").toList, ("b").toList), (("c").toList, ("d").toList),
          (("e").toList, ("f").toList)]).2.2, e.tier = 4)
    ∧ ((searchAllSources missFetchers demoHash none none
        [(("a").toList, ("b").toList), (("c").toList, ("d").toList),
          (("e").toList, ("f").toList)]).2.2.filter
        (fun e => e.tier == 4)).length ≤ 2 :=
  ⟨by decide, (claim_C5_web_fallback missFetchers demoHash none none
    [(("a").toList, ("b").toList), (("c").toList, ("d").toList),
      (("e").toList, ("f").toList)]).2⟩

/-! ## Structure of `splitLines` and `pyStrip`

These support the fact that no content validated by `_validate_lyrics` can
strip to the negative-cache marker, which underpins the cache round-trip. -/

theorem splitLines_cons_eq (c : Char) (s : Str) (x : Str) (xs : List Str)
    (hs : splitLines s = x :: xs) :
    splitLines (c :: s) = if c = '\n' then [] :: x :: xs
      else (c :: x) :: xs := by
  rw [show splitLines (c :: s) = (match splitLines s with
    | [] => [[c]]
    | l :: ls => if c = '\n' then [] :: l :: ls else (c :: l) :: ls) from rfl,
    hs]

theorem splitLines_ne_nil : ∀ s : Str, splitLines s ≠ [] := by
  intro s
  induction s with
  | nil => simp [splitLines]
  | cons c rest ih =>
    cases hsl : splitLines rest with
    | nil => exact absurd hsl ih
    | cons l ls =>
      rw [splitLines_cons_eq c rest l ls hsl]
      by_cases hc : c = '\n'
      · rw [if_pos hc]; simp
      · rw [if_neg hc]; simp

theorem dropWhile_append_of_all {p : Char → Bool} : ∀ (w r : Str),
    (∀ c ∈ w, p c = true) → (w ++ r).dropWhile p = r.dropWhile p := by
  intro w r
  induction w with
  | nil => intro _; rfl
  | cons c w ih =>
    intro h
    rw [List.cons_append, List.dropWhile_cons, h c (List.mem_cons_self _ _),
      if_pos rfl]
    exact ih (fun d hd => h d (List.mem_cons_of_mem _ hd))

theorem pyStrip_ws (w : Str) (h : ∀ c ∈ w, isPyWs c = true) :
    pyStrip w = [] := by
  unfold pyStrip
  have h1 : w.dropWhile isPyWs = [] := by
    have h2 := dropWhile_append_of_all w [] h
    simpa using h2
  rw [h1]
  rfl

theorem dropWhile_cons_neg {p : Char → Bool} {c : Char} (l : Str)
    (h : p c = false) : (c :: l).dropWhile p = c :: l := by
  rw [List.dropWhile_cons, h]
  simp

theorem pyStrip_ws_marker (wpre hw : Str)
    (h1 : ∀ c ∈ wpre, isPyWs c = true) (h2 : ∀ c ∈ hw, isPyWs c = true) :
    pyStrip (wpre ++ (negativeCacheMarker ++ hw)) = negativeCacheMarker := by
  unfold pyStrip
  rw [dropWhile_append_of_all wpre _ h1]
  have hm : negativeCacheMarker ++ hw
      = '[' :: ("no lyrics found]").toList ++ hw := rfl
  rw [hm, List.cons_append, dropWhile_cons_neg _ (by decide),
    ← List.cons_append, ← hm, List.reverse_append,
    dropWhile_append_of_all _ _ (fun c hc => h2 c (List.mem_reverse.mp hc))]
  have hr : negativeCacheMarker.reverse.dropWhile isPyWs
      = negativeCacheMarker.reverse := by decide
  rw [hr, List.reverse_reverse]

theorem pyStrip_decomp (s : Str) : ∃ w1 w2,
    s = w1 ++ (pyStrip s ++ w2)
    ∧ (∀ c ∈ w1, isPyWs c = true) ∧ (∀ c ∈ w2, isPyWs c = true) := by
  refine ⟨s.takeWhile isPyWs,
    ((s.dropWhile isPyWs).reverse.takeWhile isPyWs).reverse, ?_, ?_, ?_⟩
  · have h2 : ((s.dropWhile isPyWs).reverse.takeWhile isPyWs)
        ++ ((s.dropWhile isPyWs).reverse.dropWhile isPyWs)
        = (s.dropWhile isPyWs).reverse :=
      List.takeWhile_append_dropWhile isPyWs _
    have h3 := congrArg List.reverse h2
    rw [List.reverse_append, List.reverse_reverse] at h3
    have h4 : pyStrip s
        ++ ((s.dropWhile isPyWs).reverse.takeWhile isPyWs).reverse
        = s.dropWhile isPyWs := h3
    conv_lhs => rw [← List.takeWhile_append_dropWhile isPyWs s, ← h4]
  · intro c hc
    exact List.mem_takeWhile_imp hc
  · intro c hc
    rw [List.mem_reverse] at hc
    exact List.mem_takeWhile_imp hc

theorem splitLines_ws_lines : ∀ (w : Str), (∀ c ∈ w, isPyWs c = true) →
    ∀ L ∈ splitLines w, ∀ c ∈ L, isPyWs c = true := by
  intro w
  induction w with
  | nil =>
    intro _ L hL c hc
    rw [show splitLines [] = [[]] from rfl] at hL
    rcases List.mem_singleton.mp hL with rfl
    exact absurd hc (List.not_mem_nil c)
  | cons a w ih =>
    intro hws L hL c hc
    have hws' : ∀ d ∈ w, isPyWs d = true :=
      fun d hd => hws d (List.mem_cons_of_mem _ hd)
    cases hsl : splitLines w with
    | nil => exact absurd hsl (splitLines_ne_nil w)
    | cons x xs =>
      rw [splitLines_cons_eq a w x xs hsl] at hL
      by_cases ha : a = '\n'
      · rw [if_pos ha] at hL
        rcases List.mem_cons.mp hL with rfl | hL'
        · exact absurd hc (List.not_mem_nil c)
        · exact ih hws' L (by rw [hsl]; exact hL') c hc
      · rw [if_neg ha] at hL
        rcases List.mem_cons.mp hL with rfl | hL'
        · rcases List.mem_cons.mp hc with rfl | hc'
          · exact hws c (List.mem_cons_self _ _)
          · exact ih hws' x (by rw [hsl]; exact List.mem_cons_self _ _) c hc'
        · exact ih hws' L (by rw [hsl]; exact List.mem_cons_of_mem _ hL') c hc

theorem splitLines_nonl_prefix : ∀ (m t : Str), '\n' ∉ m →
    ∀ x xs, splitLines t = x :: xs →
    splitLines (m ++ t) = (m ++ x) :: xs := by
  intro m
  induction m with
  | nil =>
    intro t _ x xs ht
    rw [List.nil_append, ht, List.nil_append]
  | cons c m ih =>
    intro t hm x xs ht
    have hc : ¬(c = '\n') := fun h => hm (h ▸ List.mem_cons_self c m)
    have hm' : '\n' ∉ m := fun h => hm (List.mem_cons_of_mem _ h)
    have hrec := ih t hm' x xs ht
    rw [List.cons_append, splitLines_cons_eq c (m ++ t) (m ++ x) xs hrec,
      if_neg hc, List.cons_append]

theorem splitLines_ws_prefix : ∀ (w t : Str), (∀ c ∈ w, isPyWs c = true) →
    ∀ x xs, splitLines t = x :: xs →
    ∀ y ys, splitLines (w ++ t) = y :: ys →
    ((∀ c ∈ y, isPyWs c = true)
      ∨ ∃ wpre, (∀ c ∈ wpre, isPyWs c = true) ∧ y = wpre ++ x)
    ∧ (∀ L ∈ ys, (∀ c ∈ L, isPyWs c = true)
        ∨ (∃ wpre, (∀ c ∈ wpre, isPyWs c = true) ∧ L = wpre ++ x)
        ∨ L ∈ xs) := by
  intro w
  induction w with
  | nil =>
    intro t _ x xs ht y ys hyt
    rw [List.nil_append, ht] at hyt
    injection hyt with h1 h2
    subst h1
    subst h2
    refine ⟨Or.inr ⟨[], fun c hc => absurd hc (List.not_mem_nil c),
      (List.nil_append x).symm⟩, ?_⟩
    intro L hL
    exact Or.inr (Or.inr hL)
  | cons c w ihw =>
    intro t hws x xs ht y ys hyt
    have hws' : ∀ d ∈ w, isPyWs d = true :=
      fun d hd => hws d (List.mem_cons_of_mem _ hd)
    have hcws : isPyWs c = true := hws c (List.mem_cons_self _ _)
    cases hsl : splitLines (w ++ t) with
    | nil => exact absurd hsl (splitLines_ne_nil _)
    | cons z zs =>
      obtain ⟨ihH, ihT⟩ := ihw t hws' x xs ht z zs hsl
      rw [List.cons_append, splitLines_cons_eq c (w ++ t) z zs hsl] at hyt
      by_cases hc : c = '\n'
      · rw [if_pos hc] at hyt
        injection hyt with h1 h2
        subst h1
        subst h2
        refine ⟨Or.inl (fun d hd => absurd hd (List.not_mem_nil d)), ?_⟩
        intro L hL
        rcases List.mem_cons.mp hL with rfl | hmem
        · rcases ihH with hws0 | ⟨wpre, hwp, heq⟩
          · exact Or.inl hws0
          · exact Or.inr (Or.inl ⟨wpre, hwp, heq⟩)
        · exact ihT L hmem
      · rw [if_neg hc] at hyt
        injection hyt with h1 h2
        subst h1
        subst h2
        refine ⟨?_, ihT⟩
        rcases ihH with hws0 | ⟨wpre, hwp, heq⟩
        · refine Or.inl (fun d hd => ?_)
          rcases List.mem_cons.mp hd with rfl | hd'
          · exact hcws
          · exact hws0 d hd'
        · refine Or.inr ⟨c :: wpre, fun d hd => ?_, ?_⟩
          · rcases List.mem_cons.mp hd with rfl | hd'
            · exact hcws
            · exact hwp d hd'
          · rw [heq, List.cons_append]

theorem countLyricLines_marker : ∀ s : Str,
    pyStrip s = negativeCacheMarker → countLyricLines s = 0 := by
  intro s h
  obtain ⟨w1, w2, hs, hw1, hw2⟩ := pyStrip_decomp s
  rw [h] at hs
  unfold countLyricLines
  rw [List.countP_eq_zero]
  intro l hl
  rw [List.mem_map] at hl
  obtain ⟨L, hL, rfl⟩ := hl
  rw [hs] at hL
  cases hw2l : splitLines w2 with
  | nil => exact absurd hw2l (splitLines_ne_nil w2)
  | cons xw xsw =>
  have hxw_ws : ∀ c ∈ xw, isPyWs c = true :=
    fun c hc => splitLines_ws_lines w2 hw2 xw
      (by rw [hw2l]; exact List.mem_cons_self _ _) c hc
  have hxsw_ws : ∀ L' ∈ xsw, ∀ c ∈ L', isPyWs c = true :=
    fun L' hL' => splitLines_ws_lines w2 hw2 L'
      (by rw [hw2l]; exact List.mem_cons_of_mem _ hL')
  have hmt := splitLines_nonl_prefix negativeCacheMarker w2 (by decide)
    xw xsw hw2l
  cases hall : splitLines (w1 ++ (negativeCacheMarker ++ w2)) with
  | nil => exact absurd hall (splitLines_ne_nil _)
  | cons y ys =>
  obtain ⟨hhead, htail⟩ := splitLines_ws_prefix w1 (negativeCacheMarker ++ w2)
    hw1 (negativeCacheMarker ++ xw) xsw hmt y ys hall
  rw [hall] at hL
  have hfin_ws : ∀ (M : Str), (∀ c ∈ M, isPyWs c = true) →
      ¬((fun l => l ≠ [] && countedLyricLine l) (pyStrip M) = true) := by
    intro M hM
    rw [pyStrip_ws M hM]
    decide
  have hfin_mark : ∀ (wpre : Str), (∀ c ∈ wpre, isPyWs c = true) →
      ¬((fun l => l ≠ [] && countedLyricLine l)
        (pyStrip (wpre ++ (negativeCacheMarker ++ xw))) = true) := by
    intro wpre hwp
    rw [pyStrip_ws_marker wpre xw hwp hxw_ws]
    decide
  rcases List.mem_cons.mp hL with rfl | hmem
  · rcases hhead with hws0 | ⟨wpre, hwp, heq⟩
    · exact hfin_ws L hws0
    · rw [heq]
      exact hfin_mark wpre hwp
  · rcases htail L hmem with hws0 | ⟨wpre, hwp, heq⟩ | hxs
    · exact hfin_ws L hws0
    · rw [heq]
      exact hfin_mark wpre hwp
    · exact hfin_ws L (hxsw_ws L hxs)

theorem validateLyrics_marker_free {c : Str} {dur : Option ℚ}
    (h : validateLyrics c dur = true) :
    c ≠ [] ∧ pyStrip c ≠ negativeCacheMarker := by
  have hcount : 2 ≤ countLyricLines c := by
    by_contra hlt
    have hlt' : countLyricLines c < 2 := Nat.lt_of_not_le hlt
    simp only [validateLyrics] at h
    rw [if_pos hlt'] at h
    exact Bool.false_ne_true h
  constructor
  · intro hnil
    rw [hnil] at hcount
    rw [show countLyricLines ([] : Str) = 0 from rfl] at hcount
    exact absurd hcount (by decide)
  · intro hmark
    rw [countLyricLines_marker c hmark] at hcount
    exact absurd hcount (by decide)

/-! ## Idempotence of `pyStrip` and the cache round-trip -/

theorem dropWhile_head_not {p : Char → Bool} : ∀ (l : Str) (x : Char),
    (l.dropWhile p).head? = some x → p x = false := by
  intro l
  induction l with
  | nil => intro x h; simp at h
  | cons c l ih =>
    intro x h
    rw [List.dropWhile_cons] at h
    by_cases hc : p c = true
    · rw [if_pos hc] at h
      exact ih x h
    · rw [if_neg hc] at h
      rw [List.head?_cons] at h
      injection h with h
      subst h
      cases hpc : p c with
      | true => exact absurd hpc hc
      | false => rfl

theorem dropWhile_eq_self_of {p : Char → Bool} (l : Str)
    (h : ∀ x, l.head? = some x → p x = false) : l.dropWhile p = l := by
  cases l with
  | nil => rfl
  | cons c l =>
    have hpc : p c = false := h c List.head?_cons
    rw [List.dropWhile_cons, hpc]
    rw [if_neg Bool.false_ne_true]

theorem getLast?_of_suffix {u v : Str} (h : u <:+ v) (hne : u ≠ []) :
    v.getLast? = u.getLast? := by
  obtain ⟨w, rfl⟩ := h
  rw [List.getLast?_append]
  cases hu : u.getLast? with
  | none =>
    exact absurd (List.getLast?_eq_none_iff.mp hu) hne
  | some x => rfl

theorem pyStrip_idem (s : Str) : pyStrip (pyStrip s) = pyStrip s := by
  unfold pyStrip
  have h1 : ((s.dropWhile isPyWs).reverse.dropWhile isPyWs).reverse.dropWhile
      isPyWs = ((s.dropWhile isPyWs).reverse.dropWhile isPyWs).reverse := by
    apply dropWhile_eq_self_of
    intro x hx
    rw [List.head?_reverse] at hx
    by_cases hun : (s.dropWhile isPyWs).reverse.dropWhile isPyWs = []
    · rw [hun] at hx
      simp at hx
    · have hsuf := @List.dropWhile_suffix _ (s.dropWhile isPyWs).reverse isPyWs
      have hlast := getLast?_of_suffix hsuf hun
      rw [List.getLast?_reverse] at hlast
      exact dropWhile_head_not s x (hlast.trans hx)
  rw [h1, List.reverse_reverse]
  have h2 : ((s.dropWhile isPyWs).reverse.dropWhile isPyWs).dropWhile isPyWs
      = (s.dropWhile isPyWs).reverse.dropWhile isPyWs := by
    apply dropWhile_eq_self_of
    intro x hx
    exact dropWhile_head_not (s.dropWhile isPyWs).reverse x hx
  rw [h2]

/-! ## Endpoint cache behaviour -/

theorem fetchLyrics_cached (f : Fetchers) (hashFn : Str → Int)
    (req : LyricsRequest) (content : Str) (age : ℚ)
    (hforce : req.force = false) (hne : content ≠ [])
    (hmark : pyStrip content ≠ negativeCacheMarker) :
    fetchLyrics f hashFn req (.present content age) =
      ({ success := true, outputPath := some req.outputPath,
         source := some ("cached".toList),
         synced := hasLrcTimestamps (pyStrip content),
         lyrics := some (pyStrip content) }, .present content age, []) := by
  simp [fetchLyrics, hforce, hne, hmark]

theorem fetchLyrics_cases (f : Fetchers) (hashFn : Str → Int)
    (req : LyricsRequest) (fs : FileState) (hforce : req.force = false) :
    (∃ content age, fs = .present content age ∧ content ≠ []
      ∧ pyStrip content ≠ negativeCacheMarker
      ∧ fetchLyrics f hashFn req fs =
        ({ success := true, outputPath := some req.outputPath,
           source := some ("cached".toList),
           synced := hasLrcTimestamps (pyStrip content),
           lyrics := some (pyStrip content) }, fs, []))
    ∨ (isNegativeCacheValid fs = true
      ∧ fetchLyrics f hashFn req fs =
        ({ success := false, outputPath := none,
           source := some ("negative-cache".toList), synced := false,
           lyrics := none }, fs, []))
    ∨ (isNegativeCacheValid fs = false
      ∧ fetchLyrics f hashFn req fs = resolveViaSearch f hashFn req) := by
  cases fs with
  | absent =>
    right; right
    refine ⟨rfl, ?_⟩
    simp [fetchLyrics, hforce, isNegativeCacheValid]
  | present content age =>
    by_cases hne : content = []
    · right; right
      subst hne
      have hval : isNegativeCacheValid (.present [] age) = false := by
        simp only [isNegativeCacheValid]
        rw [decide_eq_false (by decide), Bool.false_and]
      refine ⟨hval, ?_⟩
      simp [fetchLyrics, hforce, hval]
    · by_cases hmark : pyStrip content = negativeCacheMarker
      · by_cases hage : age < 30
        · right; left
          have hval : isNegativeCacheValid (.present content age) = true := by
            simp only [isNegativeCacheValid]
            rw [decide_eq_true hmark, decide_eq_true hage, Bool.and_self]
          refine ⟨hval, ?_⟩
          simp [fetchLyrics, hforce, hmark, hval]
        · right; right
          have hval : isNegativeCacheValid (.present content age) = false := by
            simp only [isNegativeCacheValid]
            rw [decide_eq_true hmark, decide_eq_false hage, Bool.true_and]
          refine ⟨hval, ?_⟩
          simp [fetchLyrics, hforce, hmark, hval]
      · left
        exact ⟨content, age, rfl, hne, hmark,
          fetchLyrics_cached f hashFn req content age hforce hne hmark⟩

theorem fetchLyrics_negcache (f : Fetchers) (hashFn : Str → Int)
    (req : LyricsRequest) (fs : FileState)
    (hforce : req.force = false) (hvalid : isNegativeCacheValid fs = true) :
    fetchLyrics f hashFn req fs =
      ({ success := false, outputPath := none,
         source := some ("negative-cache".toList), synced := false,
         lyrics := none }, fs, []) := by
  rcases fetchLyrics_cases f hashFn req fs hforce with
    ⟨content, age, hfs, hne, hmark, heq⟩ | ⟨hv, heq⟩ | ⟨hv, heq⟩
  · subst hfs
    simp only [isNegativeCacheValid, Bool.and_eq_true, decide_eq_true_eq]
      at hvalid
    exact absurd hvalid.1 hmark
  · exact heq
  · rw [hvalid] at hv
    exact absurd hv (by decide)

theorem resolveViaSearch_success (f : Fetchers) (hashFn : Str → Int)
    (req : LyricsRequest)
    (h : (resolveViaSearch f hashFn req).1.success = true) :
    ∃ chosen : Str × Str,
      resolveViaSearch f hashFn req =
        ({ success := true, outputPath := some req.outputPath,
           source := some chosen.2, synced := hasLrcTimestamps chosen.1,
           lyrics := some chosen.1 }, .present chosen.1 0,
          (searchAllSources f hashFn req.album (durOf req)
            (generateQueryVariations req.artist req.title)).2.2)
      ∧ validateLyrics chosen.1 (durOf req) = true := by
  simp only [resolveViaSearch] at h ⊢
  by_cases hb : (searchAllSources f hashFn req.album (durOf req)
      (generateQueryVariations req.artist req.title)).2.1 = true
  · rw [if_pos hb] at h
    simp at h
  · rw [if_neg hb] at h ⊢
    cases hc : (searchAllSources f hashFn req.album (durOf req)
        (generateQueryVariations req.artist req.title)).1 with
    | nil =>
      rw [hc] at h
      simp at h
    | cons c0 cs0 =>
      rw [hc] at h
      cases hsel : selectBestCandidate (c0 :: cs0) with
      | none =>
        rw [hsel] at h
        simp at h
      | some chosen =>
        rw [hsel] at h
        refine ⟨chosen, rfl, ?_⟩
        obtain ⟨cd, hcd, hv⟩ := select_text_mem hsel
        obtain ⟨hval, -, -⟩ := searchAllSources_props f hashFn req.album
          (durOf req) (generateQueryVariations req.artist req.title)
        have hmem : cd ∈ (searchAllSources f hashFn req.album (durOf req)
            (generateQueryVariations req.artist req.title)).1 := by
          rw [hc]
          exact hcd
        have hvd := hval cd hmem
        rw [hv]
        exact hvd

/-! ## Claims C8 and C9 -/

/-- C8 amended: after a successful first resolution with `force = false`, a
second call returns `{success: true, source: "cached"}` with zero fetch
events and an unchanged file, and its `lyrics` field is the
whitespace-stripped form of the first call's lyrics (identical only when the
stored lyrics carry no leading/trailing whitespace; see the counterexample
with a trailing newline). -/
theorem claim_C8_idempotent (f : Fetchers) (hashFn : Str → Int)
    (req : LyricsRequest) (fs : FileState)
    (hforce : req.force = false)
    (hsucc : (fetchLyrics f hashFn req fs).1.success = true) :
    (fetchLyrics f hashFn req (fetchLyrics f hashFn req fs).2.1).1.success
        = true
    ∧ (fetchLyrics f hashFn req (fetchLyrics f hashFn req fs).2.1).1.source
        = some ("cached".toList)
    ∧ (fetchLyrics f hashFn req (fetchLyrics f hashFn req fs).2.1).2.2 = []
    ∧ (fetchLyrics f hashFn req (fetchLyrics f hashFn req fs).2.1).2.1
        = (fetchLyrics f hashFn req fs).2.1
    ∧ ∃ ly, (fetchLyrics f hashFn req fs).1.lyrics = some ly
        ∧ (fetchLyrics f hashFn req (fetchLyrics f hashFn req fs).2.1).1.lyrics
          = some (pyStrip ly) := by
  rcases fetchLyrics_cases f hashFn req fs hforce with
    ⟨content, age, hfs, hne, hmark, heq⟩ | ⟨hv, heq⟩ | ⟨hv, heq⟩
  · have run1fs : (fetchLyrics f hashFn req fs).2.1
        = FileState.present content age := by
      rw [heq, hfs]
    have hrun2 := fetchLyrics_cached f hashFn req content age hforce hne hmark
    refine ⟨?_, ?_, ?_, ?_, ?_⟩
    · rw [run1fs, hrun2]
    · rw [run1fs, hrun2]
    · rw [run1fs, hrun2]
    · rw [run1fs, hrun2]
    · refine ⟨pyStrip content, ?_, ?_⟩
      · rw [heq]
      · rw [run1fs, hrun2, pyStrip_idem]
  · rw [heq] at hsucc
    exact absurd hsucc (by simp)
  · rw [heq] at hsucc
    obtain ⟨chosen, heq2, hval⟩ := resolveViaSearch_success f hashFn req hsucc
    have run1fs : (fetchLyrics f hashFn req fs).2.1
        = FileState.present chosen.1 0 := by
      rw [heq, heq2]
    obtain ⟨hne, hmark⟩ := validateLyrics_marker_free hval
    have hrun2 := fetchLyrics_cached f hashFn req chosen.1 0 hforce hne hmark
    refine ⟨?_, ?_, ?_, ?_, ?_⟩
    · rw [run1fs, hrun2]
    · rw [run1fs, hrun2]
    · rw [run1fs, hrun2]
    · rw [run1fs, hrun2]
    · refine ⟨chosen.1, ?_, ?_⟩
      · rw [heq, heq2]
      · rw [run1fs, hrun2]

theorem claim_C8_idempotent_counterexample :
    (fetchLyrics plainFetchers demoHash demoRequest .absent).1.success = true
    ∧ demoRequest.force = false
    ∧ (fetchLyrics plainFetchers demoHash demoRequest
        (fetchLyrics plainFetchers demoHash demoRequest .absent).2.1).1.source
      = some ("cached".toList)
    ∧ (fetchLyrics plainFetchers demoHash demoRequest
        (fetchLyrics plainFetchers demoHash demoRequest .absent).2.1).1.lyrics
      ≠ (fetchLyrics plainFetchers demoHash demoRequest .absent).1.lyrics := by
  refine ⟨by decide, rfl, by decide, by decide⟩

theorem claim_C8_idempotent_witness :
    (fetchLyrics cleanFetchers demoHash demoRequest .absent).1.success = true
    ∧ ((fetchLyrics cleanFetchers demoHash demoRequest
        (fetchLyrics cleanFetchers demoHash demoRequest .absent).2.1).1.success
          = true
      ∧ (fetchLyrics cleanFetchers demoHash demoRequest
          (fetchLyrics cleanFetchers demoHash demoRequest
            .absent).2.1).1.source = some ("cached".toList)
      ∧ (fetchLyrics cleanFetchers demoHash demoRequest
          (fetchLyrics cleanFetchers demoHash demoRequest .absent).2.1).2.2
          = []
      ∧ (fetchLyrics cleanFetchers demoHash demoRequest
          (fetchLyrics cleanFetchers demoHash demoRequest .absent).2.1).2.1
          = (fetchLyrics cleanFetchers demoHash demoRequest .absent).2.1
      ∧ ∃ ly, (fetchLyrics cleanFetchers demoHash demoRequest
            .absent).1.lyrics = some ly
          ∧ (fetchLyrics cleanFetchers demoHash demoRequest
              (fetchLyrics cleanFetchers demoHash demoRequest
                .absent).2.1).1.lyrics = some (pyStrip ly)) :=
  ⟨by decide, claim_C8_idempotent cleanFetchers demoHash demoRequest .absent
    rfl (by decide)⟩

/-- C9 amended: a negative-cache entry is valid exactly when the file's
*stripped* content equals the sentinel and its age is under 30 days (content
equal to the sentinel up to surrounding whitespace also validates, see the
counterexample); any `force = false` call finding a valid entry returns
`{success: false, source: "negative-cache"}` with no fetch events and the
file untouched. -/
theorem claim_C9_negative_cache :
    (∀ fs : FileState, isNegativeCacheValid fs = true ↔
      ∃ content age, fs = .present content age
        ∧ pyStrip content = negativeCacheMarker ∧ age < 30)
    ∧ (∀ (f : Fetchers) (hashFn : Str → Int) (req : LyricsRequest)
        (fs : FileState), req.force = false →
      isNegativeCacheValid fs = true →
      fetchLyrics f hashFn req fs =
        ({ success := false, outputPath := none,
           source := some ("negative-cache".toList), synced := false,
           lyrics := none }, fs, [])) := by
  constructor
  · intro fs
    cases fs with
    | absent =>
      constructor
      · intro h
        exact absurd h (by decide)
      · rintro ⟨c, a, hca, -, -⟩
        exact absurd hca (by simp)
    | present content age =>
      constructor
      · intro h
        simp only [isNegativeCacheValid, Bool.and_eq_true,
          decide_eq_true_eq] at h
        exact ⟨content, age, rfl, h.1, h.2⟩
      · rintro ⟨c, a, hca, hm, ha⟩
        injection hca with h1 h2
        subst h1
        subst h2
        simp only [isNegativeCacheValid, Bool.and_eq_true, decide_eq_true_eq]
        exact ⟨hm, ha⟩
  · intro f hashFn req fs hforce hvalid
    exact fetchLyrics_negcache f hashFn req fs hforce hvalid

theorem claim_C9_negative_cache_counterexample :
    isNegativeCacheValid (.present (("[no lyrics found]\n").toList) 0) = true
    ∧ ("[no lyrics found]\n").toList ≠ negativeCacheMarker := by
  refine ⟨by decide, by decide⟩

theorem claim_C9_negative_cache_witness :
    demoRequest.force = false
    ∧ isNegativeCacheValid (.present negativeCacheMarker 0) = true
    ∧ fetchLyrics missFetchers demoHash demoRequest
        (.present negativeCacheMarker 0) =
      ({ success := false, outputPath := none,
         source := some ("negative-cache".toList), synced := false,
         lyrics := none }, .present negativeCacheMarker 0, []) :=
  ⟨rfl, by decide, claim_C9_negative_cache.2 missFetchers demoHash demoRequest
    (.present negativeCacheMarker 0) rfl (by decide)⟩

end LyricsEngine
